import Mathlib

set_option maxHeartbeats 1000000

namespace UCAgentWeb

/-! Verification of the UCAgentWeb status dashboard core: the duration-string
conversions, the status-text parser, the content extractor and the progress
model, embedded from `src/App.tsx` (AgentStatusPage) over `List Char` /
`String`, with JavaScript string primitives (trim, split, regex scans)
modelled explicitly. -/

/-- The whitespace class of JavaScript `\s` restricted to the ASCII characters
that occur in practice (space, tab, newline, carriage return, vertical tab,
form feed). -/
def jsSpace (c : Char) : Bool :=
  c = ' ' || c = '\t' || c = '\n' || c = '\r' || c = Char.ofNat 11 || c = Char.ofNat 12

/-- JavaScript `String.prototype.trim`, left half: drop leading whitespace. -/
def jsTrimL (l : List Char) : List Char := l.dropWhile jsSpace

/-- JavaScript `String.prototype.trim`, right half: drop trailing whitespace. -/
def jsTrimR (l : List Char) : List Char := (l.reverse.dropWhile jsSpace).reverse

/-- JavaScript `String.prototype.trim` on a character list. -/
def jsTrim (l : List Char) : List Char := jsTrimR (jsTrimL l)

/-- JavaScript `String.prototype.trim` on a `String`. -/
def jsTrimS (s : String) : String := String.mk (jsTrim s.data)

/-- Decimal value of a digit run, as computed by `parseInt` on a pure-digit
capture group. -/
def digitsVal (l : List Char) : Nat := l.foldl (fun a c => 10 * a + (c.toNat - 48)) 0

/-- The character for a decimal digit `d < 10`. -/
def digitChar (d : Nat) : Char := Char.ofNat (48 + d)

/-- Decimal representation of a natural number, fuel-based so that it is
structurally recursive (the fuel `n + 1` always suffices). -/
def toDecAux : Nat → Nat → List Char
  | 0, _ => []
  | fuel + 1, n => if n < 10 then [digitChar n] else toDecAux fuel (n / 10) ++ [digitChar (n % 10)]

/-- Decimal representation of a natural number (the character list produced by
JavaScript number-to-string conversion for non-negative integers). -/
def toDec (n : Nat) : List Char := toDecAux (n + 1) n

/-- Decimal representation as a `String`. -/
def natStr (n : Nat) : String := String.mk (toDec n)

/-- Worker for `findNumBefore`: `run` is the reversed digit run currently being
scanned. -/
def findNumGo (c : Char) (run : List Char) : List Char → Option Nat
  | [] => none
  | x :: xs =>
    if x.isDigit then findNumGo c (x :: run) xs
    else if x = c && !run.isEmpty then some (digitsVal run.reverse)
    else findNumGo c [] xs

/-- Leftmost match of the regular expression `(\d+)c` for a fixed non-digit
character `c`: scan for the first maximal digit run that is immediately
followed by `c` and return its decimal value. This is exactly how
`timeStr.match(/(\d+)h/)` behaves for the unit characters `h`, `m`, `s`. -/
def findNumBefore (c : Char) (l : List Char) : Option Nat := findNumGo c [] l

/-- `convertTimeToSeconds` from `src/App.tsx`: parse a human-readable duration
such as "51m 02s" into seconds, with the guard for empty, literal `''` and
"Not started" markers. -/
def convertTimeToSeconds (timeStr : String) : Nat :=
  if timeStr = "" || timeStr = String.mk [Char.ofNat 39, Char.ofNat 39] || timeStr = "Not started"
  then 0
  else
    let hours := (findNumBefore 'h' timeStr.data).getD 0
    let minutes := (findNumBefore 'm' timeStr.data).getD 0
    let seconds := (findNumBefore 's' timeStr.data).getD 0
    hours * 3600 + minutes * 60 + seconds

/-- `convertSecondsToTime` from `src/App.tsx`: render seconds as "Xh Ym Zs",
omitting zero components, with a lone "0s" for zero, and a final trim. -/
def convertSecondsToTime (totalSeconds : Nat) : String :=
  if totalSeconds = 0 then "0s"
  else
    let hours := totalSeconds / 3600
    let minutes := totalSeconds % 3600 / 60
    let seconds := totalSeconds % 60
    let r1 := if hours > 0 then natStr hours ++ "h " else ""
    let r2 := if minutes > 0 then r1 ++ natStr minutes ++ "m " else r1
    let r3 := if seconds > 0 || (hours = 0 && minutes = 0) then r2 ++ natStr seconds ++ "s" else r2
    jsTrimS r3

/-- Render a list of (value, unit letter) blocks as a space-separated duration
string fragment, e.g. `[(1,h),(5,s)]` becomes "1h 5s". -/
def renderBlocks : List (Nat × Char) → List Char
  | [] => []
  | [(v, c)] => toDec v ++ [c]
  | (v, c) :: b :: bs => toDec v ++ c :: ' ' :: renderBlocks (b :: bs)

/-- The blocks of a duration string with optional hour, minute and second
components, in descending unit order. -/
def blocksOf (h m s : Option Nat) : List (Nat × Char) :=
  (h.map (·, 'h')).toList ++ (m.map (·, 'm')).toList ++ (s.map (·, 's')).toList

/-- The well-formed duration string with the given optional components: a
subset of h/m/s components in descending order, each printed in plain decimal
(so never zero-padded), separated by single spaces. -/
def durString (h m s : Option Nat) : String := String.mk (renderBlocks (blocksOf h m s))

/-- An optional component is positive (vacuously true when absent). -/
def posOpt : Option Nat → Bool
  | none => true
  | some v => decide (1 ≤ v)

/-- An optional component is bounded by `b` (vacuously true when absent). -/
def leOpt (b : Nat) : Option Nat → Bool
  | none => true
  | some v => decide (v ≤ b)

/-- Well-formedness of a duration string exactly as the claim states it: at
least one component present and no zero-valued component. -/
def wfDur (h m s : Option Nat) : Bool :=
  (h.isSome || m.isSome || s.isSome) && posOpt h && posOpt m && posOpt s

example : convertTimeToSeconds "1m 5s" = 65 := by decide
example : convertTimeToSeconds "" = 0 := by decide
example : convertTimeToSeconds "\x27\x27" = 0 := by decide
example : convertTimeToSeconds "Not started" = 0 := by decide
example : convertTimeToSeconds "1h 20m" = 4800 := by decide
example : convertSecondsToTime 0 = "0s" := by decide
example : convertSecondsToTime 65 = "1m 5s" := by decide
example : convertSecondsToTime 3600 = "1h" := by decide
example : convertSecondsToTime 3605 = "1h 5s" := by decide
example : durString (some 1) none (some 5) = "1h 5s" := by decide
example : durString none (some 90) none = "90m" := by decide
example : convertSecondsToTime (convertTimeToSeconds "90m") = "1h 30m" := by decide

/-! ### Round-trip lemmas for the duration conversions -/

theorem toDecAux_fuel : ∀ f g n : Nat, n < f → n < g → toDecAux f n = toDecAux g n := by
  intro f
  induction f with
  | zero => intro g n h; omega
  | succ f ih =>
    intro g n hf hg
    match g, hg with
    | g + 1, _ =>
      by_cases h10 : n < 10
      · simp [toDecAux, h10]
      · simp only [toDecAux, h10, if_false]
        have hdiv : n / 10 < n := Nat.div_lt_self (by omega) (by omega)
        rw [ih (g := g) (n := n / 10) (by omega) (by omega)]

theorem toDec_eq (n : Nat) :
    toDec n = if n < 10 then [digitChar n] else toDec (n / 10) ++ [digitChar (n % 10)] := by
  show toDecAux (n + 1) n = _
  rw [toDecAux]
  by_cases h10 : n < 10
  · simp [h10]
  · simp only [h10, if_false]
    rw [toDecAux_fuel n (n / 10 + 1) (n / 10) (by omega) (by omega)]
    rfl

theorem digitChar_isDigit {d : Nat} (h : d < 10) : (digitChar d).isDigit = true := by
  interval_cases d <;> decide

theorem digitChar_toNat {d : Nat} (h : d < 10) : (digitChar d).toNat - 48 = d := by
  interval_cases d <;> decide

theorem toDec_all_digits (n : Nat) : ∀ c ∈ toDec n, c.isDigit = true := by
  induction n using Nat.strong_induction_on with
  | _ n ih =>
    rw [toDec_eq]
    by_cases h10 : n < 10
    · simp only [h10, if_true, List.mem_singleton]
      rintro c rfl
      exact digitChar_isDigit h10
    · simp only [h10, if_false, List.mem_append, List.mem_singleton]
      rintro c (hc | rfl)
      · exact ih (n / 10) (Nat.div_lt_self (by omega) (by omega)) c hc
      · exact digitChar_isDigit (Nat.mod_lt _ (by omega))

theorem toDec_ne_nil (n : Nat) : toDec n ≠ [] := by
  rw [toDec_eq]
  by_cases h10 : n < 10 <;> simp [h10]

theorem toDec_head (n : Nat) : ∃ d t, toDec n = d :: t ∧ d.isDigit = true := by
  rcases hd : toDec n with _ | ⟨d, t⟩
  · exact absurd hd (toDec_ne_nil n)
  · exact ⟨d, t, rfl, toDec_all_digits n d (by rw [hd]; exact List.mem_cons_self _ _)⟩

theorem digitsVal_concat (l : List Char) (d : Char) :
    digitsVal (l ++ [d]) = 10 * digitsVal l + (d.toNat - 48) := by
  simp [digitsVal, List.foldl_append]

theorem digitsVal_toDec (n : Nat) : digitsVal (toDec n) = n := by
  induction n using Nat.strong_induction_on with
  | _ n ih =>
    rw [toDec_eq]
    by_cases h10 : n < 10
    · simp only [h10, if_true]
      show digitsVal ([] ++ [digitChar n]) = n
      rw [digitsVal_concat, digitChar_toNat h10]
      simp [digitsVal]
    · simp only [h10, if_false]
      rw [digitsVal_concat, ih (n / 10) (Nat.div_lt_self (by omega) (by omega)),
        digitChar_toNat (Nat.mod_lt _ (by omega))]
      omega

theorem findNumGo_digits (c : Char) (ds : List Char) (hds : ∀ d ∈ ds, d.isDigit = true) :
    ∀ run rest, findNumGo c run (ds ++ rest) = findNumGo c (ds.reverse ++ run) rest := by
  induction ds with
  | nil => intro run rest; simp
  | cons d ds ih =>
    intro run rest
    have hd : d.isDigit = true := hds d (List.mem_cons_self _ _)
    simp only [List.cons_append, findNumGo, hd, if_true, List.append_eq]
    rw [ih (fun x hx => hds x (List.mem_cons_of_mem _ hx)) (d :: run) rest]
    simp

theorem findNumGo_hit (c : Char) (hc : c.isDigit = false) (run : List Char) (hrun : run ≠ [])
    (rest : List Char) : findNumGo c run (c :: rest) = some (digitsVal run.reverse) := by
  simp [findNumGo, hc, List.isEmpty_iff, hrun]

theorem findNumGo_char_skip (c y : Char) (hy : y.isDigit = false) (hyc : (y = c) = False)
    (run rest : List Char) : findNumGo c run (y :: rest) = findNumGo c [] rest := by
  simp [findNumGo, hy, hyc]

theorem findNumGo_toDec_hit (c : Char) (hc : c.isDigit = false) (n : Nat) (rest : List Char) :
    findNumGo c [] (toDec n ++ c :: rest) = some n := by
  rw [findNumGo_digits c (toDec n) (toDec_all_digits n)]
  rw [findNumGo_hit c hc _ (by simp [toDec_ne_nil n])]
  simp [digitsVal_toDec]

theorem findNumGo_toDec_skip (c y : Char) (hy : y.isDigit = false) (hyc : (y = c) = False)
    (n : Nat) (rest : List Char) :
    findNumGo c [] (toDec n ++ y :: rest) = findNumGo c [] rest := by
  rw [findNumGo_digits c (toDec n) (toDec_all_digits n)]
  simp [findNumGo, hy, hyc]

theorem findNumBefore_renderBlocks (c : Char) (hc : c.isDigit = false) (hcs : (' ' = c) = False)
    (bs : List (Nat × Char)) (hbs : ∀ b ∈ bs, b.2.isDigit = false) :
    findNumBefore c (renderBlocks bs) = ((bs.find? (fun b => b.2 = c)).map Prod.fst) := by
  induction bs with
  | nil => rfl
  | cons hd tl ih =>
    obtain ⟨v, ch⟩ := hd
    have hch : ch.isDigit = false := hbs (v, ch) (List.mem_cons_self _ _)
    by_cases hchc : ch = c
    · cases tl with
      | nil =>
        show findNumGo c [] (toDec v ++ ch :: []) = _
        rw [hchc, findNumGo_toDec_hit c hc]
        simp [List.find?, hchc]
      | cons b bs =>
        show findNumGo c [] (toDec v ++ ch :: ' ' :: renderBlocks (b :: bs)) = _
        rw [hchc, findNumGo_toDec_hit c hc]
        simp [List.find?, hchc]
    · have hchc' : (ch = c) = False := by simp [hchc]
      cases tl with
      | nil =>
        show findNumGo c [] (toDec v ++ ch :: []) = _
        rw [findNumGo_toDec_skip c ch hch hchc']
        simp [List.find?, findNumGo, hchc]
      | cons b bs =>
        show findNumGo c [] (toDec v ++ ch :: ' ' :: renderBlocks (b :: bs)) = _
        rw [findNumGo_toDec_skip c ch hch hchc',
          findNumGo_char_skip c ' ' (by decide) hcs]
        rw [show findNumGo c [] (renderBlocks (b :: bs)) = findNumBefore c (renderBlocks (b :: bs)) from rfl]
        rw [ih (fun x hx => hbs x (List.mem_cons_of_mem _ hx))]
        simp [List.find?, hchc]

theorem blocksOf_letters (h m s : Option Nat) :
    ∀ b ∈ blocksOf h m s, b.2 = 'h' ∨ b.2 = 'm' ∨ b.2 = 's' := by
  rcases h with _ | H <;> rcases m with _ | M <;> rcases s with _ | S <;>
    simp [blocksOf]

theorem guard_neq (d : Char) (hd : d.isDigit = true) (t : List Char) :
    (decide (String.mk (d :: t) = "") ||
     decide (String.mk (d :: t) = String.mk [Char.ofNat 39, Char.ofNat 39]) ||
     decide (String.mk (d :: t) = "Not started")) = false := by
  simp only [Bool.or_eq_false_iff, decide_eq_false_iff_not]
  refine ⟨⟨?_, ?_⟩, ?_⟩ <;> intro hcase <;>
    have hdata := congrArg String.data hcase <;> simp at hdata
  · obtain ⟨h1, h2⟩ := hdata
    subst h1; exact absurd hd (by decide)
  · obtain ⟨h1, h2⟩ := hdata
    subst h1; exact absurd hd (by decide)

/-- The optional component carried by a positive value: `none` when the value
is zero (the renderer omits zero components). -/
def optOf (v : Nat) : Option Nat := if v = 0 then none else some v

theorem optOf_getD (v : Nat) : (optOf v).getD 0 = v := by
  by_cases h : v = 0 <;> simp [optOf, h]

theorem natStr_data (n : Nat) : (natStr n).data = toDec n := rfl

theorem mk_data (l : List Char) : (String.mk l).data = l := rfl

theorem mk_inj (a b : List Char) : (String.mk a = String.mk b) ↔ a = b :=
  ⟨fun h => congrArg String.data h, fun h => by rw [h]⟩

theorem isDigit_not_space {c : Char} (h : c.isDigit = true) : jsSpace c = false := by
  simp only [jsSpace, Bool.or_eq_false_iff, decide_eq_false_iff_not]
  refine ⟨⟨⟨⟨⟨?_, ?_⟩, ?_⟩, ?_⟩, ?_⟩, ?_⟩ <;> rintro rfl <;> exact absurd h (by decide)

theorem jsTrim_sandwich (d : Char) (mid : List Char) (e : Char)
    (hd : jsSpace d = false) (he : jsSpace e = false) :
    jsTrim (d :: (mid ++ [e])) = d :: (mid ++ [e]) := by
  unfold jsTrim jsTrimL jsTrimR
  rw [List.dropWhile_cons_of_neg (by simp [hd])]
  have hrev : (d :: (mid ++ [e])).reverse = e :: (mid.reverse ++ [d]) := by simp
  rw [hrev, List.dropWhile_cons_of_neg (by simp [he]), ← hrev, List.reverse_reverse]

theorem jsTrim_sandwich_sp (d : Char) (mid : List Char) (e : Char)
    (hd : jsSpace d = false) (he : jsSpace e = false) :
    jsTrim (d :: (mid ++ [e, ' '])) = d :: (mid ++ [e]) := by
  unfold jsTrim jsTrimL jsTrimR
  rw [List.dropWhile_cons_of_neg (by simp [hd])]
  have hrev : (d :: (mid ++ [e, ' '])).reverse = ' ' :: (e :: (mid.reverse ++ [d])) := by
    simp
  rw [hrev, List.dropWhile_cons_of_pos (by decide),
    List.dropWhile_cons_of_neg (by simp [he])]
  have : (e :: (mid.reverse ++ [d])).reverse = d :: (mid ++ [e]) := by simp
  rw [this]

theorem convertSecondsToTime_pos (n : Nat) (hn : ¬ n = 0) :
    convertSecondsToTime n = durString (optOf (n / 3600)) (optOf (n % 3600 / 60)) (optOf (n % 60)) := by
  by_cases hh : n / 3600 = 0 <;> by_cases hm : n % 3600 / 60 = 0 <;> by_cases hs : n % 60 = 0
  · exfalso; omega
  all_goals
    simp only [convertSecondsToTime, hn, if_false, gt_iff_lt, Nat.pos_iff_ne_zero, hh, hm, hs,
      not_false_iff, if_true, if_false, ite_true, ite_false, Bool.false_eq_true, ne_eq,
      not_true_eq_false, decide_True, decide_False,
      Bool.false_and, Bool.true_and, Bool.or_false, Bool.or_true, Bool.false_or, Bool.true_or,
      durString, blocksOf, optOf, Option.map_some, Option.map_none, Option.toList_some,
      Option.toList_none, renderBlocks, jsTrimS, String.data_append, natStr_data, mk_data,
      mk_inj, List.append_assoc, List.cons_append, List.nil_append, List.append_nil,
      List.singleton_append]
  -- (h = 0, m = 0, s > 0)
  · obtain ⟨d, t, hdt, hd⟩ := toDec_head (n % 60)
    rw [hdt]
    simp only [List.cons_append]
    rw [jsTrim_sandwich d t 's' (isDigit_not_space hd) (by decide)]
  -- (h = 0, m > 0, s = 0)
  · obtain ⟨d, t, hdt, hd⟩ := toDec_head (n % 3600 / 60)
    rw [hdt]
    simp only [List.cons_append]
    rw [jsTrim_sandwich_sp d t 'm' (isDigit_not_space hd) (by decide)]
  -- (h = 0, m > 0, s > 0)
  · obtain ⟨d, t, hdt, hd⟩ := toDec_head (n % 3600 / 60)
    rw [hdt]
    simp only [List.cons_append]
    rw [show t ++ 'm' :: ' ' :: (toDec (n % 60) ++ ['s']) =
      (t ++ 'm' :: ' ' :: toDec (n % 60)) ++ ['s'] by simp]
    rw [jsTrim_sandwich d _ 's' (isDigit_not_space hd) (by decide)]
  -- (h > 0, m = 0, s = 0)
  · obtain ⟨d, t, hdt, hd⟩ := toDec_head (n / 3600)
    rw [hdt]
    simp only [List.cons_append]
    rw [jsTrim_sandwich_sp d t 'h' (isDigit_not_space hd) (by decide)]
  -- (h > 0, m = 0, s > 0)
  · obtain ⟨d, t, hdt, hd⟩ := toDec_head (n / 3600)
    rw [hdt]
    simp only [List.cons_append]
    rw [show t ++ 'h' :: ' ' :: (toDec (n % 60) ++ ['s']) =
      (t ++ 'h' :: ' ' :: toDec (n % 60)) ++ ['s'] by simp]
    rw [jsTrim_sandwich d _ 's' (isDigit_not_space hd) (by decide)]
  -- (h > 0, m > 0, s = 0)
  · obtain ⟨d, t, hdt, hd⟩ := toDec_head (n / 3600)
    rw [hdt]
    simp only [List.cons_append]
    rw [show t ++ 'h' :: ' ' :: (toDec (n % 3600 / 60) ++ ['m', ' ']) =
      (t ++ 'h' :: ' ' :: toDec (n % 3600 / 60)) ++ ['m', ' '] by simp]
    rw [jsTrim_sandwich_sp d _ 'm' (isDigit_not_space hd) (by decide)]
    simp
  -- (h > 0, m > 0, s > 0)
  · obtain ⟨d, t, hdt, hd⟩ := toDec_head (n / 3600)
    rw [hdt]
    simp only [List.cons_append]
    rw [show t ++ 'h' :: ' ' :: (toDec (n % 3600 / 60) ++ 'm' :: ' ' :: (toDec (n % 60) ++ ['s'])) =
      (t ++ 'h' :: ' ' :: (toDec (n % 3600 / 60) ++ 'm' :: ' ' :: toDec (n % 60))) ++ ['s'] by simp]
    rw [jsTrim_sandwich d _ 's' (isDigit_not_space hd) (by decide)]

theorem renderBlocks_cons (v : Nat) (ch : Char) (tl : List (Nat × Char)) :
    ∃ d t, renderBlocks ((v, ch) :: tl) = d :: t ∧ d.isDigit = true := by
  obtain ⟨d, t, hdt, hd⟩ := toDec_head v
  cases tl with
  | nil => exact ⟨d, t ++ [ch], by simp [renderBlocks, hdt], hd⟩
  | cons b bs => exact ⟨d, t ++ ch :: ' ' :: renderBlocks (b :: bs), by simp [renderBlocks, hdt], hd⟩

theorem convertTimeToSeconds_durString (h m s : Option Nat) :
    convertTimeToSeconds (durString h m s) = h.getD 0 * 3600 + m.getD 0 * 60 + s.getD 0 := by
  have hdig : ∀ b ∈ blocksOf h m s, b.2.isDigit = false := by
    intro b hb
    rcases blocksOf_letters h m s b hb with h1 | h1 | h1 <;> rw [h1] <;> decide
  rcases hbs : blocksOf h m s with _ | ⟨⟨v, ch⟩, tl⟩
  · have hnone : h = none ∧ m = none ∧ s = none := by
      rcases h with _ | H <;> rcases m with _ | M <;> rcases s with _ | S <;>
        simp_all [blocksOf]
    obtain ⟨rfl, rfl, rfl⟩ := hnone
    decide
  · obtain ⟨d, t, hdt, hd⟩ := renderBlocks_cons v ch tl
    show convertTimeToSeconds (String.mk (renderBlocks (blocksOf h m s))) = _
    rw [hbs, hdt]
    simp only [convertTimeToSeconds]
    rw [guard_neq d hd t]
    simp only [Bool.false_eq_true, ite_false, mk_data]
    rw [← hdt, ← hbs]
    have e1 : findNumBefore 'h' (renderBlocks (blocksOf h m s)) =
        (((blocksOf h m s).find? (fun b => b.2 = 'h')).map Prod.fst) :=
      findNumBefore_renderBlocks 'h' (by decide) (by decide) _ hdig
    have e2 : findNumBefore 'm' (renderBlocks (blocksOf h m s)) =
        (((blocksOf h m s).find? (fun b => b.2 = 'm')).map Prod.fst) :=
      findNumBefore_renderBlocks 'm' (by decide) (by decide) _ hdig
    have e3 : findNumBefore 's' (renderBlocks (blocksOf h m s)) =
        (((blocksOf h m s).find? (fun b => b.2 = 's')).map Prod.fst) :=
      findNumBefore_renderBlocks 's' (by decide) (by decide) _ hdig
    rw [e1, e2, e3]
    clear hbs hdt e1 e2 e3
    rcases h with _ | H <;> rcases m with _ | M <;> rcases s with _ | S <;>
      simp [blocksOf, List.find?]

/-- C10: for every non-negative integer `n`, parsing the rendered duration
recovers `n` exactly (`convertTimeToSeconds (convertSecondsToTime n) = n`);
moreover `convertSecondsToTime` emits exactly the non-zero components (zero
components are omitted), except for the lone "0s" produced at `n = 0`. -/
theorem claim_c10_render_parse (n : Nat) :
    convertTimeToSeconds (convertSecondsToTime n) = n ∧
    (¬ n = 0 → convertSecondsToTime n =
      durString (optOf (n / 3600)) (optOf (n % 3600 / 60)) (optOf (n % 60))) ∧
    convertSecondsToTime 0 = "0s" := by
  refine ⟨?_, fun hn => convertSecondsToTime_pos n hn, by decide⟩
  by_cases hn : n = 0
  · subst hn; decide
  · rw [convertSecondsToTime_pos n hn, convertTimeToSeconds_durString]
    simp only [optOf_getD]
    omega

/-- Witness for C10 at `n = 3661`. -/
theorem claim_c10_render_parse_witness :
    convertTimeToSeconds (convertSecondsToTime 3661) = 3661 ∧
    convertSecondsToTime 3661 =
      durString (optOf (3661 / 3600)) (optOf (3661 % 3600 / 60)) (optOf (3661 % 60)) := by
  refine ⟨(claim_c10_render_parse 3661).1, (claim_c10_render_parse 3661).2.1 (by decide)⟩

/-- C1 (amended): rendering the parsed value reproduces a well-formed duration
string exactly, provided the minute and second components are at most 59
(i.e. the string is in canonical form). -/
theorem claim_c1_parse_render (h m s : Option Nat) (hwf : wfDur h m s = true)
    (hm : leOpt 59 m = true) (hs : leOpt 59 s = true) :
    convertSecondsToTime (convertTimeToSeconds (durString h m s)) = durString h m s := by
  rw [convertTimeToSeconds_durString]
  rcases h with _ | H <;> rcases m with _ | M <;> rcases s with _ | S <;>
    simp only [wfDur, posOpt, leOpt, Option.isSome_some, Option.isSome_none, Bool.or_true,
      Bool.true_or, Bool.false_or, Bool.or_false, Bool.and_eq_true, decide_eq_true_eq,
      Bool.true_and, Bool.and_true, Option.getD_some, Option.getD_none] at hwf hm hs ⊢
  · exact absurd hwf (by simp)
  · have hS := hwf
    rw [convertSecondsToTime_pos _ (by omega)]
    have e1 : (0 * 3600 + 0 * 60 + S) / 3600 = 0 := by omega
    have e2 : (0 * 3600 + 0 * 60 + S) % 3600 / 60 = 0 := by omega
    have e3 : (0 * 3600 + 0 * 60 + S) % 60 = S := by omega
    rw [e1, e2, e3]
    simp [optOf, show ¬ S = 0 by omega]
  · have hM := hwf
    rw [convertSecondsToTime_pos _ (by omega)]
    have e1 : (0 * 3600 + M * 60 + 0) / 3600 = 0 := by omega
    have e2 : (0 * 3600 + M * 60 + 0) % 3600 / 60 = M := by omega
    have e3 : (0 * 3600 + M * 60 + 0) % 60 = 0 := by omega
    rw [e1, e2, e3]
    simp [optOf, show ¬ M = 0 by omega]
  · obtain ⟨hM, hS⟩ := hwf
    rw [convertSecondsToTime_pos _ (by omega)]
    have e1 : (0 * 3600 + M * 60 + S) / 3600 = 0 := by omega
    have e2 : (0 * 3600 + M * 60 + S) % 3600 / 60 = M := by omega
    have e3 : (0 * 3600 + M * 60 + S) % 60 = S := by omega
    rw [e1, e2, e3]
    simp [optOf, show ¬ M = 0 by omega, show ¬ S = 0 by omega]
  · have hH := hwf
    rw [convertSecondsToTime_pos _ (by omega)]
    have e1 : (H * 3600 + 0 * 60 + 0) / 3600 = H := by omega
    have e2 : (H * 3600 + 0 * 60 + 0) % 3600 / 60 = 0 := by omega
    have e3 : (H * 3600 + 0 * 60 + 0) % 60 = 0 := by omega
    rw [e1, e2, e3]
    simp [optOf, show ¬ H = 0 by omega]
  · obtain ⟨hH, hS⟩ := hwf
    rw [convertSecondsToTime_pos _ (by omega)]
    have e1 : (H * 3600 + 0 * 60 + S) / 3600 = H := by omega
    have e2 : (H * 3600 + 0 * 60 + S) % 3600 / 60 = 0 := by omega
    have e3 : (H * 3600 + 0 * 60 + S) % 60 = S := by omega
    rw [e1, e2, e3]
    simp [optOf, show ¬ H = 0 by omega, show ¬ S = 0 by omega]
  · obtain ⟨hH, hM2⟩ := hwf
    rw [convertSecondsToTime_pos _ (by omega)]
    have e1 : (H * 3600 + M * 60 + 0) / 3600 = H := by omega
    have e2 : (H * 3600 + M * 60 + 0) % 3600 / 60 = M := by omega
    have e3 : (H * 3600 + M * 60 + 0) % 60 = 0 := by omega
    rw [e1, e2, e3]
    simp [optOf, show ¬ H = 0 by omega, show ¬ M = 0 by omega]
  · obtain ⟨⟨hH, hM2⟩, hS2⟩ := hwf
    rw [convertSecondsToTime_pos _ (by omega)]
    have e1 : (H * 3600 + M * 60 + S) / 3600 = H := by omega
    have e2 : (H * 3600 + M * 60 + S) % 3600 / 60 = M := by omega
    have e3 : (H * 3600 + M * 60 + S) % 60 = S := by omega
    rw [e1, e2, e3]
    simp [optOf, show ¬ H = 0 by omega, show ¬ M = 0 by omega, show ¬ S = 0 by omega]

/-- Witness for C1 at the well-formed canonical string "1h 5s". -/
theorem claim_c1_parse_render_witness :
    wfDur (some 1) none (some 5) = true ∧ leOpt 59 (none : Option Nat) = true ∧
    leOpt 59 (some 5) = true ∧
    convertSecondsToTime (convertTimeToSeconds (durString (some 1) none (some 5))) =
      durString (some 1) none (some 5) :=
  ⟨by decide, by decide, by decide,
    claim_c1_parse_render (some 1) none (some 5) (by decide) (by decide) (by decide)⟩

/-- Counterexample for C1 as stated: "90m" satisfies the claim's notion of
well-formedness (components from a subset of h/m/s, descending, non-zero, not
zero-padded) but does not round-trip: it renders as "1h 30m". -/
theorem claim_c1_counterexample :
    wfDur none (some 90) none = true ∧
    ¬ convertSecondsToTime (convertTimeToSeconds (durString none (some 90) none)) =
        durString none (some 90) none := by
  refine ⟨by decide, ?_⟩
  decide

/-! ### JavaScript string helpers used by the status parser -/

/-- `p` is a prefix of `l` (JavaScript `startsWith`). -/
def listPrefix : List Char → List Char → Bool
  | [], _ => true
  | _ :: _, [] => false
  | p :: ps, x :: xs => p == x && listPrefix ps xs

/-- JavaScript `includes`: `needle` occurs as a contiguous substring of `hay`. -/
def containsSub : List Char → List Char → Bool
  | hay, needle =>
    if listPrefix needle hay then true
    else match hay with
      | [] => false
      | _ :: t => containsSub t needle

/-- JavaScript `statusText.split('\n')`. -/
def splitLines : List Char → List (List Char)
  | [] => [[]]
  | c :: cs =>
    if c = '\n' then [] :: splitLines cs
    else match splitLines cs with
      | [] => [[c]]
      | l :: ls => (c :: l) :: ls

/-- The JavaScript regex word class `\w` = `[A-Za-z0-9_]`. -/
def wordChar (c : Char) : Bool := c.isAlpha || c.isDigit || c = '_'

/-- Leading digit run as a number; `none` when there is no leading digit
(`parseInt` returning `NaN`). -/
def digitRun (l : List Char) : Option Nat :=
  let ds := l.takeWhile Char.isDigit
  if ds.isEmpty then none else some (digitsVal ds)

/-- JavaScript `parseInt(value, 10)`: skip leading whitespace, optional sign,
then a decimal digit run; `none` models `NaN`. -/
def jsParseInt (l : List Char) : Option Int :=
  let r := l.dropWhile jsSpace
  match r with
  | '-' :: r2 => (digitRun r2).map (fun n => -(n : Int))
  | '+' :: r2 => (digitRun r2).map (fun n => (n : Int))
  | _ => (digitRun r).map (fun n => (n : Int))

/-- Match of `/^\s+(\w+):\s*(.*)/` against a line: returns the word capture and
the raw remainder capture. -/
def propMatch (line : List Char) : Option (List Char × List Char) :=
  match line with
  | [] => none
  | c :: cs =>
    if jsSpace c then
      let r := (c :: cs).dropWhile jsSpace
      let w := r.takeWhile wordChar
      if w.isEmpty then none
      else match r.dropWhile wordChar with
        | ':' :: r3 => some (w, r3.dropWhile jsSpace)
        | _ => none
    else none

/-- Match of `/^\s*-\s+/` against a line: returns the remainder after the
matched prefix (so `line.replace(/^\s*-\s+/, '')`), or `none` when the line
does not start with an (optionally indented) dash item marker. -/
def dashMatch (line : List Char) : Option (List Char) :=
  match line.dropWhile jsSpace with
  | '-' :: r2 =>
    match r2 with
    | c :: _ => if jsSpace c then some (r2.dropWhile jsSpace) else none
    | [] => none
  | _ => none

/-- Test of `/^\s*-\s+index:/`. -/
def stageStartTest (line : List Char) : Bool :=
  match dashMatch line with
  | some r => listPrefix ("index:".data) r
  | none => false

/-- Leftmost match of `/index:\s*(\d+)/`: find an occurrence of `index:`
followed (after optional whitespace) by at least one digit, and return the
digit run's value. -/
def scanIndexNum : List Char → Option Nat
  | [] => none
  | l@(_ :: rest) =>
    if listPrefix ("index:".data) l then
      match digitRun ((l.drop 6).dropWhile jsSpace) with
      | some n => some n
      | none => scanIndexNum rest
    else scanIndexNum rest

/-- Test of `/^\w+:/` (used on the trimmed line to detect a new top-level
property while inside a section). -/
def wordColonTest (l : List Char) : Bool :=
  !(l.takeWhile wordChar).isEmpty &&
    (match l.dropWhile wordChar with
     | ':' :: _ => true
     | _ => false)

/-- Worker for `scanFrac`: `run` is the reversed digit run currently being
scanned. -/
def scanFracGo (run : List Char) : List Char → Option (Nat × Nat)
  | [] => none
  | x :: xs =>
    if x.isDigit then scanFracGo (x :: run) xs
    else if x = '/' && !run.isEmpty then
      match digitRun xs with
      | some b => some (digitsVal run.reverse, b)
      | none => scanFracGo [] xs
    else scanFracGo [] xs

/-- Leftmost match of `/(\d+)\/(\d+)/` (the `process` counter pattern),
returning both captured values. -/
def scanFrac (l : List Char) : Option (Nat × Nat) := scanFracGo [] l

/-- Leftmost match of `/name:\s*(.+)/`, returning the trimmed capture (the
parser stores `nameMatch[1].trim()`; a capture that exists but is all
whitespace trims to the empty string). -/
def scanNameCap : List Char → Option (List Char)
  | [] => none
  | l@(_ :: rest) =>
    if listPrefix ("name:".data) l then
      let tail := l.drop 5
      if tail.isEmpty then scanNameCap rest else some (jsTrim tail)
    else scanNameCap rest

/-- Index of the first occurrence of `": "` (JavaScript `indexOf(': ')`),
or `none`. -/
def findColonSp : List Char → Option Nat
  | [] => none
  | l@(_ :: t) =>
    if listPrefix [':', ' '] l then some 0
    else (findColonSp t).map (· + 1)

/-- JavaScript array indexing `list[i]` with an integer index: out-of-range or
negative indices give `undefined` (`none`). -/
def jsIndex {α : Type} (l : List α) (i : Int) : Option α :=
  if i < 0 then none else l.get? i.toNat

/-! ### Data model of `AgentStatus` (`src/App.tsx`), with `Option` for fields
that the parser may leave unset (`undefined` in JavaScript) and
`Option (Option Int)` for integer fields whose parse may be `NaN`. -/

/-- One entry of `stage_list` as built by the parser (`Partial<Stage>` with
`index` always initialised). -/
structure StageP where
  index : Int := -1
  title : Option String := none
  reached : Option Bool := none
  fail_count : Option (Option Int) := none
  is_skipped : Option Bool := none
  time_cost : Option String := none
  needs_human_check : Option Bool := none
deriving DecidableEq

/-- The structured (object) variant of `current_task`. -/
structure TaskObj where
  title : String := ""
  description : List String := []
  reference_files : List (String × String) := []
  output_files : List String := []
deriving DecidableEq

/-- `current_task` is a tagged union: a structured task descriptor or a plain
string. -/
inductive CurrentTask where
  | str (s : String)
  | obj (o : TaskObj)
deriving DecidableEq

/-- Whether a `current_task` value is the plain-string variant. -/
def CurrentTask.isStr : CurrentTask → Bool
  | CurrentTask.str _ => true
  | CurrentTask.obj _ => false

/-- A dynamic value inside a `check_info` entry. -/
inductive CheckVal where
  | s (v : String)
  | intv (v : Option Int)
  | arr (v : List String)
deriving DecidableEq

/-- A `check_info` entry: a dynamic JavaScript object in insertion order. -/
abbrev CheckObj : Type := List (String × CheckVal)

/-- The result of `parseLastCheckResult`. -/
structure LastCheck where
  check_pass : Option Bool := none
  check_info : Option (List CheckObj) := none

/-- The parsed status record (`Partial<AgentStatus>` as cast by the parser). -/
structure StatusRecord where
  mission : Option String := none
  stage_list : List StageP := []
  process : Option String := none
  current_task : CurrentTask := CurrentTask.obj {}
  current_stage_index : Option Int := none
  current_stage_name : Option String := none
  last_check_result : Option LastCheck := none

/-- JavaScript object property write (replace in place or append). -/
def setField (o : CheckObj) (k : String) (v : CheckVal) : CheckObj :=
  if o.any (fun p => p.1 == k) then
    o.map (fun p => if p.1 == k then (k, v) else p)
  else o ++ [(k, v)]

/-- JavaScript object property read. -/
def getField (o : CheckObj) (k : String) : Option CheckVal :=
  (o.find? (fun p => p.1 == k)).map Prod.snd

/-- JavaScript truthiness of a `CheckVal`. -/
def cvTruthy : CheckVal → Bool
  | CheckVal.s v => !(v == "")
  | CheckVal.intv none => false
  | CheckVal.intv (some i) => !(i == 0)
  | CheckVal.arr _ => true

/-- Modify the last element of a list in place. -/
def updateLast : List CheckObj → (CheckObj → CheckObj) → List CheckObj
  | [], _ => []
  | [o], f => [f o]
  | o :: p :: rest, f => o :: updateLast (p :: rest) f

/-- `if (!currentObj.last_msg) currentObj.last_msg = []; currentObj.last_msg.push(item)`. -/
def pushLastMsg (item : List Char) (o : CheckObj) : CheckObj :=
  let o2 := if ((getField o "last_msg").map cvTruthy).getD false then o
    else setField o "last_msg" (CheckVal.arr [])
  o2.map (fun p =>
    if p.1 == "last_msg" then
      match p.2 with
      | CheckVal.arr l => (p.1, CheckVal.arr (l ++ [String.mk item]))
      | v => (p.1, v)
    else p)

/-- The break condition of `parseLastCheckResult`: a new non-indented,
non-list-item line containing a colon. -/
def lcrBreakTest (line trimmed : List Char) : Bool :=
  !line.isEmpty &&
    !(match line with
      | c :: _ => jsSpace c
      | [] => false) &&
    !(listPrefix ("- ".data) trimmed) && containsSub trimmed (":".data)

/-- Test of `/^\s*-\s+name:/`. -/
def lcrNameStart (line : List Char) : Bool :=
  match dashMatch line with
  | some r => listPrefix ("name:".data) r
  | none => false

/-- The scanning loop of `parseLastCheckResult` (`src/App.tsx`): accumulates
`check_info` entries and the `check_pass` flag until a new top-level property
is reached. -/
def lcrLoop (insideCheckInfo : Bool) (arr : List CheckObj) (cp : Option Bool) :
    List (List Char) → List CheckObj × Option Bool
  | [] => (arr, cp)
  | line :: rest =>
    let trimmed := jsTrim line
    if trimmed.isEmpty then lcrLoop insideCheckInfo arr cp rest
    else if lcrBreakTest line trimmed then (arr, cp)
    else if trimmed = ("check_info:".data) then lcrLoop true arr cp rest
    else if insideCheckInfo then
      if lcrNameStart line then
        match scanNameCap line with
        | some nm => lcrLoop true (arr ++ [[("name", CheckVal.s (String.mk nm))]]) cp rest
        | none => lcrLoop true arr cp rest
      else if !arr.isEmpty then
        match propMatch line with
        | some (prop, rawv) =>
          let value := jsTrim rawv
          let nv : CheckVal :=
            if prop = ("last_msg".data) || prop = ("description".data) then CheckVal.arr []
            else if prop = ("count_pass".data) || prop = ("count_fail".data) ||
                prop = ("count_check".data) then CheckVal.intv (jsParseInt value)
            else CheckVal.s (String.mk value)
          lcrLoop true (updateLast arr (fun o => setField o (String.mk prop) nv)) cp rest
        | none =>
          if ((dashMatch line).isSome && containsSub line ("last_msg:".data)) ||
              containsSub line ("description:".data) then
            match dashMatch line with
            | some rem =>
              match rem with
              | [] => lcrLoop true arr cp rest
              | _ :: _ => lcrLoop true (updateLast arr (pushLastMsg (jsTrim rem))) cp rest
            | none => lcrLoop true arr cp rest
          else lcrLoop true arr cp rest
      else lcrLoop true arr cp rest
    else if listPrefix ("check_pass:".data) trimmed then
      lcrLoop insideCheckInfo arr (some (jsTrim (trimmed.drop 11) == ("true".data))) rest
    else lcrLoop insideCheckInfo arr cp rest

/-- `parseLastCheckResult` from `src/App.tsx`. -/
def parseLastCheckResult (ls : List (List Char)) : LastCheck :=
  let r := lcrLoop false [] none ls
  { check_pass := r.2, check_info := if r.1.isEmpty then none else some r.1 }

/-- The parser's current-section state. -/
inductive Sect where
  | stageList
  | currentTask
deriving DecidableEq

/-- The parser's current-subsection state (inside `current_task`). -/
inductive Subsect where
  | description
  | referenceFiles
  | outputFiles
deriving DecidableEq

/-- The mutable scanning state of `parseStatusResponse`. -/
structure PState where
  result : StatusRecord := {}
  currentSection : Option Sect := none
  currentSubsection : Option Subsect := none
  currentStage : Option StageP := none

/-- The `switch (property)` of the stage-property handler in
`parseStatusResponse`; `value` is the trimmed capture. -/
def stageApply (st : StageP) (prop : List Char) (value : List Char) : StageP :=
  if prop = ("title".data) then { st with title := some (String.mk value) }
  else if prop = ("reached".data) then { st with reached := some (value == ("true".data)) }
  else if prop = ("fail_count".data) then { st with fail_count := some (jsParseInt value) }
  else if prop = ("is_skipped".data) then { st with is_skipped := some (value == ("true".data)) }
  else if prop = ("time_cost".data) then { st with time_cost := some (String.mk value) }
  else if prop = ("needs_human_check".data) then
    { st with needs_human_check := some (value == ("true".data)) }
  else st

/-- JavaScript truthiness of the `current_task` union value. -/
def ctTruthy : CurrentTask → Bool
  | CurrentTask.str s => !(s == "")
  | CurrentTask.obj _ => true

/-- JavaScript object property write for `reference_files`. -/
def setRF (rf : List (String × String)) (k v : String) : List (String × String) :=
  if rf.any (fun p => p.1 == k) then
    rf.map (fun p => if p.1 == k then (k, v) else p)
  else rf ++ [(k, v)]

/-- One step of the `current_task` section handler of `parseStatusResponse`. -/
def ctStep (line trimmed : List Char) (st : PState) : PState :=
  if listPrefix ("title:".data) trimmed then
    match st.result.current_task with
    | CurrentTask.obj o =>
      let o2 := { o with title := String.mk (jsTrim (trimmed.drop 6)) }
      { st with result := { st.result with current_task := CurrentTask.obj o2 } }
    | CurrentTask.str _ => st
  else if trimmed = ("description:".data) then
    { st with currentSubsection := some Subsect.description }
  else if st.currentSubsection = some Subsect.description && (dashMatch line).isSome then
    match dashMatch line with
    | some rem =>
      let descItem := jsTrim rem
      match st.result.current_task with
      | CurrentTask.obj o =>
        if !descItem.isEmpty then
          let o2 := { o with description := o.description ++ [String.mk descItem] }
          { st with result := { st.result with current_task := CurrentTask.obj o2 } }
        else st
      | CurrentTask.str _ => st
    | none => st
  else if trimmed = ("reference_files:".data) then
    { st with currentSubsection := some Subsect.referenceFiles }
  else if st.currentSubsection = some Subsect.referenceFiles && (dashMatch line).isSome then
    match dashMatch line with
    | some rem =>
      let fileEntry := jsTrim rem
      match findColonSp fileEntry with
      | some i =>
        match st.result.current_task with
        | CurrentTask.obj o =>
          let nrf := setRF o.reference_files (String.mk (fileEntry.take i))
            (String.mk (fileEntry.drop (i + 2)))
          let o2 := { o with reference_files := nrf }
          { st with result := { st.result with current_task := CurrentTask.obj o2 } }
        | CurrentTask.str _ => st
      | none =>
        match st.result.current_task with
        | CurrentTask.obj o =>
          let nrf := setRF o.reference_files (String.mk fileEntry) "Not Read"
          let o2 := { o with reference_files := nrf }
          { st with result := { st.result with current_task := CurrentTask.obj o2 } }
        | CurrentTask.str _ => st
    | none => st
  else if trimmed = ("output_files:".data) then
    { st with currentSubsection := some Subsect.outputFiles }
  else if st.currentSubsection = some Subsect.outputFiles && (dashMatch line).isSome then
    match dashMatch line with
    | some rem =>
      let file := jsTrim rem
      match st.result.current_task with
      | CurrentTask.obj o =>
        if !file.isEmpty then
          let o2 := { o with output_files := o.output_files ++ [String.mk file] }
          { st with result := { st.result with current_task := CurrentTask.obj o2 } }
        else st
      | CurrentTask.str _ => st
    | none => st
  else if wordColonTest trimmed then
    { st with currentSection := none, currentSubsection := none }
  else st

/-- The `current_stage_index` value handler: non-empty values with a parseable
integer are stored; anything else yields the `-1` sentinel. -/
def csiValue (value : List Char) : Int :=
  if !value.isEmpty then
    match jsParseInt value with
    | some k => k
    | none => -1
  else -1

/-- The skip condition used after `last_check_result:` (the inner loop that
advances to the next non-empty, non-indented line). -/
def topLevelCond (l : List Char) : Bool :=
  !(jsTrim l).isEmpty &&
    !(match l with
      | c :: _ => jsSpace c
      | [] => false)

/-- The index a `- index:` stage-start line declares: the captured number, or
`-1` when the `index:\s*(\d+)` pattern finds no digits. -/
def stageIdxOf (line : List Char) : Int :=
  match scanIndexNum line with
  | some n => (n : Int)
  | none => -1

/-- The `current_task:` top-level line handler of `parseStatusResponse`:
a non-empty trailing value replaces `current_task` with an object variant
carrying the message as title and a fixed sentinel description (leaving the
section state untouched); an empty value opens the `current_task` block
section. -/
def ctLineStep (ctv : List Char) (st : PState) : PState :=
  if !ctv.isEmpty then
    if ctTruthy st.result.current_task then
      let o2 : TaskObj := ⟨String.mk ctv, ["Mission completed or no active task"], [], []⟩
      { st with result := { st.result with current_task := CurrentTask.obj o2 } }
    else st
  else { st with currentSection := some Sect.currentTask }

/-- One step of the scanning loop of `parseStatusResponse` (`src/App.tsx`):
dispatch on the current line and return the next scanner state together with
the lines still to be scanned (which are the remaining lines, except after
`last_check_result:`, whose handler skips ahead to the next top-level line). -/
def stepOf (line : List Char) (rest : List (List Char)) (st : PState) :
    PState × List (List Char) :=
  let trimmed := jsTrim line
  if trimmed.isEmpty then (st, rest)
  else if listPrefix ("mission:".data) trimmed then
    ({ st with
      result := { st.result with mission := some (String.mk (jsTrim (trimmed.drop 8))) },
      currentSection := none }, rest)
  else if listPrefix ("process:".data) trimmed then
    ({ st with
      result := { st.result with process := some (String.mk (jsTrim (trimmed.drop 8))) },
      currentSection := none }, rest)
  else if listPrefix ("current_stage_index:".data) trimmed then
    ({ st with
      result := { st.result with
        current_stage_index := some (csiValue (jsTrim (trimmed.drop 20))) },
      currentSection := none }, rest)
  else if listPrefix ("current_stage_name:".data) trimmed then
    ({ st with
      result := { st.result with
        current_stage_name := some (String.mk (jsTrim (trimmed.drop 19))) },
      currentSection := none }, rest)
  else if listPrefix ("last_check_result:".data) trimmed then
    ({ st with
      result := { st.result with
        last_check_result := some (parseLastCheckResult (line :: rest)) },
      currentSection := none }, rest.dropWhile (fun l => !topLevelCond l))
  else if trimmed = ("stage_list:".data) then
    ({ st with currentSection := some Sect.stageList }, rest)
  else if listPrefix ("current_task:".data) trimmed then
    (ctLineStep (jsTrim (trimmed.drop 13)) st, rest)
  else if st.currentSection = some Sect.stageList then
    if stageStartTest line then
      let flushed := match st.currentStage with
        | some c => st.result.stage_list ++ [c]
        | none => st.result.stage_list
      let ns : StageP := { index := stageIdxOf line }
      ({ st with result := { st.result with stage_list := flushed },
                 currentStage := some ns }, rest)
    else
      match st.currentStage with
      | some cst =>
        match propMatch line with
        | some pv =>
          ({ st with currentStage := some (stageApply cst pv.1 (jsTrim pv.2)) }, rest)
        | none =>
          if wordColonTest trimmed then
            ({ st with currentSection := none, currentSubsection := none }, rest)
          else (st, rest)
      | none => (st, rest)
  else if st.currentSection = some Sect.currentTask then
    (ctStep line trimmed st, rest)
  else (st, rest)

/-- The main scanning loop of `parseStatusResponse`: iterate `stepOf` over the
lines. Fuel-based so that it is structurally recursive; each step consumes at
least one line, so `length + 1` fuel always suffices. -/
def parseLinesF : Nat → List (List Char) → PState → PState
  | 0, _, st => st
  | _ + 1, [], st => st
  | fuel + 1, line :: rest, st =>
    parseLinesF fuel (stepOf line rest st).2 (stepOf line rest st).1

/-- The scanning loop at its canonical fuel (one unit of fuel per line plus
one; each step consumes at least one line). -/
def parseLines (ls : List (List Char)) (st : PState) : PState :=
  parseLinesF (ls.length + 1) ls st

/-- `parseStatusResponse` from `src/App.tsx`: split into lines, scan, and
flush the pending stage. -/
def parseStatusResponse (statusText : String) : StatusRecord :=
  let final := parseLines (splitLines statusText.data) {}
  match final.currentStage with
  | some c => { final.result with stage_list := final.result.stage_list ++ [c] }
  | none => final.result

/-! ### Progress and current-stage model (`src/App.tsx`) -/

/-- `getCurrentStage` from `src/App.tsx`: index `stage_list` with
`current_stage_index` (a missing index gives `null`; an out-of-range or `-1`
index gives `undefined`; both are `none` here). -/
def getCurrentStage (status : StatusRecord) : Option StageP :=
  match status.current_stage_index with
  | none => none
  | some i => jsIndex status.stage_list i

/-- The `stage?.reached === true || stage?.is_skipped === true` test applied to
a possibly-`undefined` stage. -/
def reachedOrSkipped (ost : Option StageP) : Bool :=
  match ost with
  | none => false
  | some stg => stg.reached == some true || stg.is_skipped == some true

/-- The `process`-counter check of `isStageCompleted`: the `process` string
matches `(\d+)/(\d+)` with `completedCount >= totalCount && completedCount > 0`. -/
def processSaysComplete (status : StatusRecord) : Bool :=
  match status.process with
  | some p =>
    match scanFrac p.data with
    | some ab => ab.1 ≥ ab.2 && ab.1 > 0
    | none => false
  | none => false

/-- `isStageCompleted` from `src/App.tsx`: the three-branch classification
(`process`-complete, valid `current_stage_index`, plain reached/skipped). -/
def isStageCompleted (status : StatusRecord) (stageIndex : Int) : Bool :=
  if processSaysComplete status then reachedOrSkipped (jsIndex status.stage_list stageIndex)
  else
    match status.current_stage_index with
    | some i =>
      if i ≠ -1 then decide (stageIndex < i)
      else reachedOrSkipped (jsIndex status.stage_list stageIndex)
    | none => reachedOrSkipped (jsIndex status.stage_list stageIndex)

/-- JavaScript `Math.round` on an exact rational: round half away from zero
towards positive infinity. -/
def jsRound (q : ℚ) : ℤ := Int.floor (q + 1 / 2)

/-- `calculateProgress` from `src/App.tsx`. -/
def calculateProgress (status : StatusRecord) : ℤ :=
  if status.stage_list.length = 0 then 0
  else
    let totalStages := status.stage_list.length
    let completedStages :=
      (status.stage_list.filter (fun stg => isStageCompleted status stg.index)).length
    jsRound (((completedStages : ℚ) / (totalStages : ℚ)) * 100)

/-- Closed form for `Math.round((k / N) * 100)` on natural counts: rounding
half up equals integer division `(200k + N) / (2N)`. -/
theorem jsRound_frac (k N : Nat) (hN : N ≠ 0) :
    jsRound ((k : ℚ) / (N : ℚ) * 100) = (((200 * k + N) / (2 * N) : ℕ) : ℤ) := by
  have hNpos : 0 < N := Nat.pos_of_ne_zero hN
  have hN0 : (0:ℚ) < (N:ℚ) := by exact_mod_cast hNpos
  have h2N : (0:ℚ) < ((2 * N : ℕ) : ℚ) := by
    push_cast
    linarith
  have hx : (k : ℚ) / (N : ℚ) * 100 + 1 / 2 = ((200 * k + N : ℕ) : ℚ) / ((2 * N : ℕ) : ℚ) := by
    field_simp
    ring
  unfold jsRound
  rw [hx, Int.floor_eq_iff]
  constructor
  · rw [le_div_iff₀ h2N]
    have hle : ((200 * k + N) / (2 * N)) * (2 * N) ≤ 200 * k + N := Nat.div_mul_le_self _ _
    exact_mod_cast hle
  · rw [div_lt_iff₀ h2N]
    have hlt : 200 * k + N < ((200 * k + N) / (2 * N)) * (2 * N) + 2 * N :=
      Nat.lt_div_mul_add (by omega)
    have hltq : (((200 * k + N : ℕ) : ℤ) : ℚ) <
        ((((200 * k + N) / (2 * N) : ℕ) : ℤ) : ℚ) * (((2 * N : ℕ) : ℤ) : ℚ) +
          (((2 * N : ℕ) : ℤ) : ℚ) := by
      exact_mod_cast hlt
    push_cast at hltq ⊢
    ring_nf at hltq ⊢
    linarith

/-- Closed form for `calculateProgress` with a non-empty stage list. -/
theorem calculateProgress_eq (status : StatusRecord) (h : status.stage_list.length ≠ 0) :
    calculateProgress status =
      (((200 * (status.stage_list.filter (fun stg => isStageCompleted status stg.index)).length +
        status.stage_list.length) / (2 * status.stage_list.length) : ℕ) : ℤ) := by
  unfold calculateProgress
  rw [if_neg h]
  exact jsRound_frac _ _ h

/-- The concrete sample input of spec section 8. -/
def sampleStatusText : String :=
  "mission: Adder verification\nstage_list:\n- index: 0\n  title: plan\n  reached: true\n  fail_count: 0\n  is_skipped: false\n  time_cost: 1m 5s\n  needs_human_check: false\n- index: 1\n  title: implement\n  reached: false\n  fail_count: 2\n  is_skipped: false\n  time_cost: \x27\x27\n  needs_human_check: true\nprocess: 1/2\ncurrent_stage_index: 1\ncurrent_stage_name: implement"

/-- C5: parsing the section-8 sample yields a `stage_list` of length 2, stage
0's `time_cost` parses to 65 seconds, stage 1 has `fail_count` 2 and
`needs_human_check` true, and the computed progress percentage is 50. -/
theorem claim_c5_sample :
    (parseStatusResponse sampleStatusText).stage_list.length = 2 ∧
    (((parseStatusResponse sampleStatusText).stage_list.get? 0).bind
        (fun stg => stg.time_cost)).map convertTimeToSeconds = some 65 ∧
    ((parseStatusResponse sampleStatusText).stage_list.get? 1).bind
        (fun stg => stg.fail_count) = some (some 2) ∧
    ((parseStatusResponse sampleStatusText).stage_list.get? 1).bind
        (fun stg => stg.needs_human_check) = some true ∧
    calculateProgress (parseStatusResponse sampleStatusText) = 50 := by
  refine ⟨by decide, by decide, by decide, by decide, ?_⟩
  rw [calculateProgress_eq _ (by decide)]
  decide

/-- C7: a non-numeric, empty, or null-like `current_stage_index:` value yields
the `-1` sentinel (distinct from 0), and every downstream consumer treats the
sentinel as "no active stage" without indexing `stage_list` with it:
`getCurrentStage` is `none` (for the sentinel and for an absent index alike)
and stage classification falls back to the per-stage flags. -/
theorem claim_c7_csi_sentinel :
    (∀ v : List Char, jsParseInt v = none → csiValue v = -1) ∧
    csiValue [] = -1 ∧
    csiValue ("null".data) = -1 ∧
    (parseStatusResponse "current_stage_index: null").current_stage_index = some (-1) ∧
    (∀ r : StatusRecord, r.current_stage_index = some (-1) → getCurrentStage r = none) ∧
    (∀ r : StatusRecord, r.current_stage_index = none → getCurrentStage r = none) ∧
    (∀ (r : StatusRecord) (i : Int), r.current_stage_index = some (-1) →
      isStageCompleted r i = reachedOrSkipped (jsIndex r.stage_list i)) := by
  refine ⟨?_, by decide, by decide, by decide, ?_, ?_, ?_⟩
  · intro v hv
    unfold csiValue
    rw [hv]
    split <;> rfl
  · intro r hr
    unfold getCurrentStage
    rw [hr]
    simp [jsIndex]
  · intro r hr
    unfold getCurrentStage
    rw [hr]
  · intro r i hr
    unfold isStageCompleted
    rw [hr]
    split <;> simp

/-- Witness for C7: the token "abc" is non-numeric and maps to the sentinel;
a concrete record with the sentinel has no current stage and classifies
stages by flags. -/
theorem claim_c7_csi_sentinel_witness :
    csiValue ("abc".data) = -1 ∧
    getCurrentStage
      ({ current_stage_index := some (-1), stage_list := [{ index := 0 }] } : StatusRecord) = none ∧
    isStageCompleted ({ current_stage_index := some (-1) } : StatusRecord) 0 =
      reachedOrSkipped (jsIndex ({ current_stage_index := some (-1) } : StatusRecord).stage_list 0) :=
  ⟨claim_c7_csi_sentinel.1 _ (by decide),
   claim_c7_csi_sentinel.2.2.2.2.1 _ rfl,
   claim_c7_csi_sentinel.2.2.2.2.2.2 _ 0 rfl⟩

/-- C6 (amended): for a stage property line, the boolean properties `reached`,
`is_skipped` and `needs_human_check` store `some true` exactly when the
trimmed value is the literal "true" and `some false` for any other value; an
absent line leaves the field unset (`none`), which the strict `=== true` reads
downstream treat as false; and `fail_count` stores `parseInt`'s result
verbatim — an integer for a numeric-prefixed value but NaN (`some none`) for a
non-numeric one, never a default 0. -/
theorem claim_c6_stage_props :
    (∀ (st : StageP) (v : List Char),
      (stageApply st ("reached".data) v).reached = some (v == ("true".data)) ∧
      (stageApply st ("is_skipped".data) v).is_skipped = some (v == ("true".data)) ∧
      (stageApply st ("needs_human_check".data) v).needs_human_check =
        some (v == ("true".data)) ∧
      (stageApply st ("fail_count".data) v).fail_count = some (jsParseInt v)) ∧
    (∀ i : Int, ({ index := i } : StageP).reached = none ∧
      ({ index := i } : StageP).is_skipped = none ∧
      ({ index := i } : StageP).needs_human_check = none ∧
      ({ index := i } : StageP).fail_count = none) ∧
    ((none : Option Bool) == some true) = false ∧
    ((some false : Option Bool) == some true) = false := by
  refine ⟨fun st v => ⟨?_, ?_, ?_, ?_⟩, fun i => ⟨rfl, rfl, rfl, rfl⟩, rfl, rfl⟩
  · unfold stageApply
    rw [if_neg (by decide), if_pos rfl]
  · unfold stageApply
    rw [if_neg (by decide), if_neg (by decide), if_neg (by decide), if_pos rfl]
  · unfold stageApply
    rw [if_neg (by decide), if_neg (by decide), if_neg (by decide), if_neg (by decide),
      if_neg (by decide), if_pos rfl]
  · unfold stageApply
    rw [if_neg (by decide), if_neg (by decide), if_pos rfl]

/-- Counterexample for C6 as stated: in a stage block with a non-numeric
`fail_count: xyz` line, the stored `fail_count` is NaN (modelled `some none`),
not the claimed integer 0. -/
theorem claim_c6_counterexample :
    ((parseStatusResponse "stage_list:\n- index: 0\n  fail_count: xyz").stage_list.get? 0).bind
        (fun stg => stg.fail_count) = some none ∧
    (some none : Option (Option Int)) ≠ some (some 0) := by
  exact ⟨by decide, by decide⟩

/-- C4 (amended): a `current_task:` line with non-empty trailing content makes
the parser store the object variant of `currentTask`, with the message as its
title and the fixed sentinel description, and it does not open the
`current_task` block section (no nested-block parsing); the presentation layer
observes the object variant, not the string variant. -/
theorem claim_c4_current_task :
    (∀ (st : PState) (v : List Char), ¬ v = [] →
      (ctLineStep v st).currentSection = st.currentSection ∧
      (ctTruthy st.result.current_task = true →
        (ctLineStep v st).result.current_task =
          CurrentTask.obj ⟨String.mk v, ["Mission completed or no active task"], [], []⟩)) ∧
    (parseStatusResponse "current_task: Mission completed").current_task =
      CurrentTask.obj ⟨"Mission completed", ["Mission completed or no active task"], [], []⟩ ∧
    CurrentTask.isStr (parseStatusResponse "current_task: Mission completed").current_task
      = false ∧
    (parseLines (splitLines ("current_task: Mission completed".data)) {}).currentSection
      = none := by
  refine ⟨?_, by decide, by decide, by decide⟩
  intro st v hv
  unfold ctLineStep
  have hne : (!v.isEmpty) = true := by
    cases v with
    | nil => exact absurd rfl hv
    | cons c cs => rfl
  rw [hne]
  constructor
  · by_cases ht : ctTruthy st.result.current_task = true
    · rw [if_pos rfl, if_pos ht]
    · rw [if_pos rfl, if_neg ht]
  · intro ht
    rw [if_pos rfl, if_pos ht]

/-- Witness for C4 at the fresh state and the value "Done". -/
theorem claim_c4_current_task_witness :
    (ctLineStep ("Done".data) {}).currentSection = ({} : PState).currentSection ∧
    (ctLineStep ("Done".data) {}).result.current_task =
      CurrentTask.obj ⟨String.mk ("Done".data), ["Mission completed or no active task"], [], []⟩ :=
  ⟨(claim_c4_current_task.1 {} ("Done".data) (by decide)).1,
   (claim_c4_current_task.1 {} ("Done".data) (by decide)).2 rfl⟩

/-- Counterexample for C4 as stated: for `current_task: Mission completed` the
parser does not produce the string-valued variant — it produces the object
variant wrapping the message. -/
theorem claim_c4_counterexample :
    CurrentTask.isStr (parseStatusResponse "current_task: Mission completed").current_task
      = false ∧
    (parseStatusResponse "current_task: Mission completed").current_task =
      CurrentTask.obj ⟨"Mission completed", ["Mission completed or no active task"], [], []⟩ :=
  ⟨by decide, by decide⟩

/-- The progress percentage exactly as the claim states it: round(100*k/N)
where `k` counts the stages satisfying `reached || isSkipped`, and 0 for an
empty stage list (spec-side comparator for C3). -/
def specProgress (status : StatusRecord) : ℤ :=
  if status.stage_list.length = 0 then 0
  else
    jsRound ((100 * ((status.stage_list.filter
      (fun stg => reachedOrSkipped (some stg))).length : ℚ)) / (status.stage_list.length : ℚ))

/-- Closed form for `specProgress` with a non-empty stage list. -/
theorem specProgress_eq (status : StatusRecord) (h : status.stage_list.length ≠ 0) :
    specProgress status =
      (((200 * (status.stage_list.filter (fun stg => reachedOrSkipped (some stg))).length +
        status.stage_list.length) / (2 * status.stage_list.length) : ℕ) : ℤ) := by
  unfold specProgress
  rw [if_neg h]
  rw [show (100 * (((status.stage_list.filter
        (fun stg => reachedOrSkipped (some stg))).length : ℕ) : ℚ)) /
        ((status.stage_list.length : ℕ) : ℚ) =
      (((status.stage_list.filter (fun stg => reachedOrSkipped (some stg))).length : ℚ)) /
        ((status.stage_list.length : ℚ)) * 100 from by ring]
  exact jsRound_frac _ _ h

/-- C3 (amended): the computed progress percentage equals round(100*k/N) — `k`
the count of stages with `reached || isSkipped`, `N` the stage count, and 0
for `N = 0` — provided each stage's `index` equals its position in
`stage_list` and either the `process` counter reports completion or there is
no valid `current_stage_index` (absent or the `-1` sentinel). With a valid
current stage index the code instead counts stages with index below it. -/
theorem claim_c3_progress (r : StatusRecord)
    (hidx : ∀ p : Fin r.stage_list.length, (r.stage_list.get p).index = ((p : Nat) : Int))
    (hpath : processSaysComplete r = true ∨ r.current_stage_index = none ∨
      r.current_stage_index = some (-1)) :
    calculateProgress r = specProgress r := by
  by_cases hlen : r.stage_list.length = 0
  · unfold calculateProgress specProgress
    rw [if_pos hlen, if_pos hlen]
  · have hfilter : r.stage_list.filter (fun stg => isStageCompleted r stg.index) =
        r.stage_list.filter (fun stg => reachedOrSkipped (some stg)) := by
      apply List.filter_congr
      intro stg hstg
      obtain ⟨p, hp⟩ := List.mem_iff_get.mp hstg
      have hidxp : stg.index = ((p : Nat) : Int) := by rw [← hp]; exact hidx p
      have hjs : jsIndex r.stage_list stg.index = some stg := by
        rw [hidxp]
        unfold jsIndex
        rw [if_neg (by omega)]
        rw [Int.toNat_natCast]
        rw [List.get?_eq_get p.isLt, hp]
      unfold isStageCompleted
      rcases hpath with hpc | hcsi | hcsi
      · rw [hpc, if_pos rfl, hjs]
      · rw [hcsi]
        split
        · rw [hjs]
        · show reachedOrSkipped (jsIndex r.stage_list stg.index) = reachedOrSkipped (some stg)
          rw [hjs]
      · rw [hcsi]
        split
        · rw [hjs]
        · show (if (-1 : Int) ≠ -1 then decide (stg.index < -1)
              else reachedOrSkipped (jsIndex r.stage_list stg.index)) =
            reachedOrSkipped (some stg)
          rw [if_neg (by omega), hjs]
    rw [calculateProgress_eq r hlen, specProgress_eq r hlen, hfilter]

/-- A record on which the claimed formula disagrees with the code: two reached
stages but a valid `current_stage_index` of 0. -/
def c3CexRecord : StatusRecord :=
  { stage_list := [{ index := 0, reached := some true }, { index := 1, reached := some true }],
    current_stage_index := some 0 }

/-- Counterexample for C3 as stated: with a valid current stage index the code
counts stages with index below it (here 0 of 2, so 0%), not the
reached-or-skipped count (which would give 100%). -/
theorem claim_c3_counterexample :
    ¬ calculateProgress c3CexRecord = specProgress c3CexRecord ∧
    calculateProgress c3CexRecord = 0 ∧ specProgress c3CexRecord = 100 := by
  have h1 : calculateProgress c3CexRecord = 0 := by
    rw [calculateProgress_eq c3CexRecord (by decide)]
    decide
  have h2 : specProgress c3CexRecord = 100 := by
    rw [specProgress_eq c3CexRecord (by decide)]
    decide
  refine ⟨by rw [h1, h2]; decide, h1, h2⟩

/-- A record in the no-valid-current-stage case: one of two stages completed. -/
def c3WitnessRecord : StatusRecord :=
  { stage_list := [{ index := 0, reached := some true }, { index := 1 }] }

/-- Witness for C3: on a concrete record with no current stage index, the
computed progress matches the claimed formula and equals 50%. -/
theorem claim_c3_progress_witness :
    calculateProgress c3WitnessRecord = specProgress c3WitnessRecord ∧
    specProgress c3WitnessRecord = 50 := by
  refine ⟨claim_c3_progress c3WitnessRecord (by decide) (Or.inr (Or.inl rfl)), ?_⟩
  rw [specProgress_eq c3WitnessRecord (by decide)]
  decide

/-! ### JSON value model and parser for the content extractor
(`extractTextContent` in `src/App.tsx` / `src/AgentStatus.tsx`).
`JSON.parse` and `JSON.stringify` are platform builtins; they are modelled by
a recursive-descent parser over the JSON grammar and a serializer. Numbers
carry their exact decimal value as a mantissa/exponent pair (JavaScript
rounds to the nearest double; the exact value agrees with it on the
moderate-precision numbers of status payloads and has the same
zero/non-zero truthiness for every literal a double can distinguish from
zero). A `\u` escape whose code unit is an unpaired surrogate decodes to a
replacement character, as Lean `Char` holds only Unicode scalar values;
acceptance and rejection of inputs are unaffected. The serializer's exact
whitespace is not modelled. No claim depends on these approximations. -/

/-- A JavaScript JSON value. -/
inductive JSVal where
  | jnull
  | jbool (b : Bool)
  | jnum (m : Int) (e : Int)
  | jstr (s : String)
  | jarr (items : List JSVal)
  | jobj (fields : List (String × JSVal))

/-- The string carried by a `jstr`, if any. -/
def asStr : JSVal → Option String
  | JSVal.jstr s => some s
  | _ => none

/-- The opening brace character. -/
def lbrace : Char := Char.ofNat 123

/-- The closing brace character. -/
def rbrace : Char := Char.ofNat 125

/-- JSON insignificant whitespace. -/
def jsonWs (c : Char) : Bool := c = ' ' || c = '\t' || c = '\n' || c = '\r'

/-- Skip JSON whitespace. -/
def skipWs (l : List Char) : List Char := l.dropWhile jsonWs

/-- A JSON string escape character and its value. -/
def escChar (c : Char) : Option Char :=
  if c = '"' then some '"'
  else if c = '\\' then some '\\'
  else if c = '/' then some '/'
  else if c = 'n' then some '\n'
  else if c = 't' then some '\t'
  else if c = 'r' then some '\r'
  else if c = 'b' then some (Char.ofNat 8)
  else if c = 'f' then some (Char.ofNat 12)
  else none

/-- The value of a hexadecimal digit. -/
def hexVal (c : Char) : Option Nat :=
  if '0' ≤ c && c ≤ '9' then some (c.toNat - 48)
  else if 'a' ≤ c && c ≤ 'f' then some (c.toNat - 87)
  else if 'A' ≤ c && c ≤ 'F' then some (c.toNat - 55)
  else none

/-- Parse the body of a JSON string literal (after the opening quote); raw
control characters and unsupported escapes are rejected as `JSON.parse`
rejects them. -/
def parseStrChars : Nat → List Char → Option (List Char × List Char)
  | 0, _ => none
  | fuel + 1, l =>
    match l with
    | [] => none
    | c :: rest =>
      if c = '"' then some ([], rest)
      else if c = '\\' then
        match rest with
        | [] => none
        | e :: rest2 =>
          if e = 'u' then
            match rest2 with
            | h1 :: h2 :: h3 :: h4 :: rest3 =>
              match hexVal h1, hexVal h2, hexVal h3, hexVal h4 with
              | some v1, some v2, some v3, some v4 =>
                (parseStrChars fuel rest3).map
                  (fun p => (Char.ofNat (((v1 * 16 + v2) * 16 + v3) * 16 + v4) :: p.1, p.2))
              | _, _, _, _ => none
            | _ => none
          else
            match escChar e with
            | some ec => (parseStrChars fuel rest2).map (fun p => (ec :: p.1, p.2))
            | none => none
      else if c.toNat < 32 then none
      else (parseStrChars fuel rest).map (fun p => (c :: p.1, p.2))

/-- Parse a JSON number per the JSON grammar (optional minus, an integer part
with no leading zero, optional fraction and exponent), returning its exact
decimal value as a mantissa/exponent pair `m * 10 ^ e`. -/
def parseNum (l : List Char) : Option (JSVal × List Char) :=
  let signed : Bool := match l with
    | '-' :: _ => true
    | _ => false
  let r := if signed then l.drop 1 else l
  let ds : List Char := match r with
    | '0' :: _ => ['0']
    | _ => r.takeWhile Char.isDigit
  if ds.isEmpty then none
  else
    let r2 := r.drop ds.length
    let frac : Option (List Char × List Char) :=
      match r2 with
      | '.' :: r3 =>
        let fs := r3.takeWhile Char.isDigit
        if fs.isEmpty then none else some (fs, r3.dropWhile Char.isDigit)
      | _ => some ([], r2)
    match frac with
    | none => none
    | some (fs, r4) =>
      let eSign : Bool := match r4 with
        | 'e' :: '-' :: _ => true
        | 'E' :: '-' :: _ => true
        | _ => false
      let expPart : Option (List Char × List Char) :=
        match r4 with
        | 'e' :: r5 | 'E' :: r5 =>
          let r6 := match r5 with
            | '+' :: r6 => r6
            | '-' :: r6 => r6
            | _ => r5
          let es := r6.takeWhile Char.isDigit
          if es.isEmpty then none else some (es, r6.dropWhile Char.isDigit)
        | _ => some ([], r4)
      match expPart with
      | none => none
      | some (es, r7) =>
        let mAbs : Nat := digitsVal (ds ++ fs)
        let m : Int := if signed then -(mAbs : Int) else (mAbs : Int)
        let eMag : Int := (digitsVal es : Int)
        some (JSVal.jnum m ((if eSign then -eMag else eMag) - (fs.length : Int)), r7)

/-- Insert a key/value pair into a JSON object under construction (a duplicate
key keeps its first position and takes the last value, as in `JSON.parse`). -/
def objInsert (fs : List (String × JSVal)) (k : String) (v : JSVal) : List (String × JSVal) :=
  if fs.any (fun p => p.1 == k) then
    fs.map (fun p => if p.1 == k then (k, v) else p)
  else fs ++ [(k, v)]

mutual

/-- Recursive-descent JSON value parser (fuel-based; the input length plus one
always suffices since every recursive call consumes at least one character). -/
def parseVal : Nat → List Char → Option (JSVal × List Char)
  | 0, _ => none
  | fuel + 1, l =>
    let l2 := skipWs l
    if listPrefix ("null".data) l2 then some (JSVal.jnull, l2.drop 4)
    else if listPrefix ("true".data) l2 then some (JSVal.jbool true, l2.drop 4)
    else if listPrefix ("false".data) l2 then some (JSVal.jbool false, l2.drop 5)
    else
      match l2 with
      | [] => none
      | c :: rest =>
        if c = '"' then
          (parseStrChars (rest.length + 1) rest).map (fun p => (JSVal.jstr (String.mk p.1), p.2))
        else if c = lbrace then
          match skipWs rest with
          | c2 :: rest2 =>
            if c2 = rbrace then some (JSVal.jobj [], rest2)
            else parseObjRest fuel [] rest
          | [] => none
        else if c = '[' then
          match skipWs rest with
          | c2 :: rest2 =>
            if c2 = ']' then some (JSVal.jarr [], rest2)
            else parseArrRest fuel [] rest
          | [] => none
        else parseNum l2

/-- Parse the members of a JSON object (after the opening brace, knowing the
object is non-empty). -/
def parseObjRest : Nat → List (String × JSVal) → List Char → Option (JSVal × List Char)
  | 0, _, _ => none
  | fuel + 1, acc, l =>
    match skipWs l with
    | '"' :: rest =>
      match parseStrChars (rest.length + 1) rest with
      | some (k, r1) =>
        match skipWs r1 with
        | ':' :: r2 =>
          match parseVal fuel r2 with
          | some (v, r3) =>
            let acc2 := objInsert acc (String.mk k) v
            match skipWs r3 with
            | ',' :: r4 => parseObjRest fuel acc2 r4
            | c :: r4 => if c = rbrace then some (JSVal.jobj acc2, r4) else none
            | [] => none
          | none => none
        | _ => none
      | none => none
    | _ => none

/-- Parse the elements of a JSON array (after the opening bracket, knowing the
array is non-empty). -/
def parseArrRest : Nat → List JSVal → List Char → Option (JSVal × List Char)
  | 0, _, _ => none
  | fuel + 1, acc, l =>
    match parseVal fuel l with
    | some (v, r1) =>
      match skipWs r1 with
      | ',' :: r2 => parseArrRest fuel (acc ++ [v]) r2
      | ']' :: r2 => some (JSVal.jarr (acc ++ [v]), r2)
      | _ => none
    | none => none

end

/-- `JSON.parse` as a total function: `none` models a thrown `SyntaxError`. -/
def jsonParse (s : String) : Option JSVal :=
  match parseVal (s.data.length + 1) s.data with
  | some (v, rest) => if (skipWs rest).isEmpty then some v else none
  | none => none

/-- JavaScript truthiness of a JSON value. -/
def jsTruthy : JSVal → Bool
  | JSVal.jnull => false
  | JSVal.jbool b => b
  | JSVal.jnum m _ => !(m == 0)
  | JSVal.jstr s => !(s == "")
  | JSVal.jarr _ => true
  | JSVal.jobj _ => true

/-- `typeof v === 'object'` (objects, arrays and `null`). -/
def isObjType : JSVal → Bool
  | JSVal.jobj _ => true
  | JSVal.jarr _ => true
  | JSVal.jnull => true
  | _ => false

/-- JavaScript property read `v.k` (`none` models `undefined`). -/
def jsGet (v : JSVal) (k : String) : Option JSVal :=
  match v with
  | JSVal.jobj fs => (fs.find? (fun p => p.1 == k)).map Prod.snd
  | _ => none

/-- `item.type === 'text'`. -/
def typeIsText (item : JSVal) : Bool :=
  match jsGet item "type" with
  | some (JSVal.jstr t) => t == "text"
  | _ => false

/-- Decimal representation of an integer. -/
def intStr (i : Int) : String :=
  if i < 0 then "-" ++ natStr i.natAbs else natStr i.toNat

/-- Exact positional decimal rendering of `m * 10 ^ e` (JavaScript prints the
shortest decimal denoting the nearest double and switches to exponent
notation at extreme magnitudes; the exact positional form agrees with it on
the moderate-precision numbers status payloads carry). -/
def decStr (m e : Int) : String :=
  if 0 ≤ e then intStr (m * (10 : Int) ^ e.toNat)
  else
    let k := (-e).toNat
    let sign := if m < 0 then "-" else ""
    let n := m.natAbs
    let p : Nat := 10 ^ k
    if n % p = 0 then sign ++ natStr (n / p)
    else
      let fd := natStr (n % p)
      let pad := List.replicate (k - fd.length) '0'
      let frac := ((pad ++ fd.data).reverse.dropWhile (fun c => c = '0')).reverse
      sign ++ natStr (n / p) ++ "." ++ String.mk frac

/-- JavaScript template-literal stringification of a JSON value (arrays are
approximated by the empty string; no claim exercises that case). -/
def jsToString : JSVal → String
  | JSVal.jstr s => s
  | JSVal.jbool b => if b then "true" else "false"
  | JSVal.jnull => "null"
  | JSVal.jnum m e => decStr m e
  | JSVal.jarr _ => ""
  | JSVal.jobj _ => "[object Object]"

/-- Quote a string as a JSON string literal (escaping quotes and backslashes). -/
def quoteStr (s : String) : String :=
  String.mk ('"' :: (s.data.foldr (fun c acc =>
    if c = '"' || c = '\\' then '\\' :: c :: acc else c :: acc) ['"']))

mutual

/-- Serializer behind `jsonStringify`. -/
def jsonStringifyV : JSVal → String
  | JSVal.jnull => "null"
  | JSVal.jbool b => if b then "true" else "false"
  | JSVal.jnum m e => decStr m e
  | JSVal.jstr s => quoteStr s
  | JSVal.jarr items => "[" ++ jsonStringifyL items ++ "]"
  | JSVal.jobj fs => String.mk [lbrace] ++ jsonStringifyO fs ++ String.mk [rbrace]

/-- Serialize array elements, comma-separated. -/
def jsonStringifyL : List JSVal → String
  | [] => ""
  | [v] => jsonStringifyV v
  | v :: w :: vs => jsonStringifyV v ++ "," ++ jsonStringifyL (w :: vs)

/-- Serialize object members, comma-separated. -/
def jsonStringifyO : List (String × JSVal) → String
  | [] => ""
  | [p] => quoteStr p.1 ++ ":" ++ jsonStringifyV p.2
  | p :: q :: ps => quoteStr p.1 ++ ":" ++ jsonStringifyV p.2 ++ "," ++ jsonStringifyO (q :: ps)

end

/-- `JSON.stringify(data, null, 2)` modulo layout whitespace. -/
def jsonStringify (v : JSVal) : String := jsonStringifyV v

/-- `extractTextContent` from `src/App.tsx` (the identical copy in
`src/AgentStatus.tsx` is covered by the same embedding): pull the first
`type: "text"` payload out of a tool-call result, synthesize
`"error: <message>"` when the payload embeds a parseable error envelope, fall
back to the original payload when the embedded data is malformed, and
serialize the whole value when the conventional shape is absent. -/
def extractTextContent (data : JSVal) : JSVal :=
  if jsTruthy data && isObjType data then
    match jsGet data "content" with
    | some (JSVal.jarr items) =>
      match items.find? (fun item => jsTruthy item && typeIsText item) with
      | some item =>
        match jsGet item "text" with
        | some t =>
          if jsTruthy t then
            match t with
            | JSVal.jstr s =>
              if containsSub s.data ("\"error\"".data) then
                match jsonParse s with
                | some parsed =>
                  match jsGet parsed "error" with
                  | some e =>
                    if jsTruthy e then JSVal.jstr ("error: " ++ jsToString e) else t
                  | none => t
                | none => t
              else t
            | other => other
          else JSVal.jstr (jsonStringify data)
        | none => JSVal.jstr (jsonStringify data)
      | none => JSVal.jstr (jsonStringify data)
    | _ => JSVal.jstr (jsonStringify data)
  else JSVal.jstr (jsonStringify data)

/-- A tool-call result whose single text payload is `s`. -/
def wrapText (s : String) : JSVal :=
  JSVal.jobj [("content", JSVal.jarr
    [JSVal.jobj [("type", JSVal.jstr "text"), ("text", JSVal.jstr s)]])]

/-- C8 (amended): the extractor parses the WHOLE text payload, not an embedded
substring. For every payload that contains the guard substring `"error"` and
whose entirety `JSON.parse`s to a value carrying a non-empty string under the
`error` key, the extractor synthesizes `"error: <message>"`; and for every
non-empty payload that contains the guard substring but does not parse as a
whole (in particular one that merely CONTAINS an error envelope), the
`catch` makes the extractor return the original text unchanged — it never
throws. -/
theorem claim_c8_extract :
    (∀ (s m : String) (v : JSVal), containsSub s.data ("\"error\"".data) = true →
      jsonParse s = some v → jsGet v "error" = some (JSVal.jstr m) → ¬ m = "" →
      asStr (extractTextContent (wrapText s)) = some ("error: " ++ m)) ∧
    (∀ s : String, ¬ s = "" → containsSub s.data ("\"error\"".data) = true →
      (jsonParse s).isNone = true → asStr (extractTextContent (wrapText s)) = some s) := by
  constructor
  · intro s m v hc hp he hm
    have hb : (s == "") = false := by
      rw [beq_eq_false_iff_ne]
      intro hse
      rw [hse] at hc
      exact absurd hc (by decide)
    have hbm : (m == "") = false := by
      rw [beq_eq_false_iff_ne]
      exact hm
    unfold extractTextContent wrapText
    cases v with
    | jobj fs =>
      simp only [jsGet] at he
      simp [jsGet, jsTruthy, isObjType, typeIsText, List.find?, hb, hc, hp, he, hbm, asStr,
        jsToString]
    | jnull =>
      simp only [jsGet] at he
      exact Option.noConfusion he
    | jbool b =>
      simp only [jsGet] at he
      exact Option.noConfusion he
    | jnum mm ee =>
      simp only [jsGet] at he
      exact Option.noConfusion he
    | jstr t =>
      simp only [jsGet] at he
      exact Option.noConfusion he
    | jarr items =>
      simp only [jsGet] at he
      exact Option.noConfusion he
  · intro s hs hc hp
    have hb : (s == "") = false := by
      rw [beq_eq_false_iff_ne]
      exact hs
    have hpn : jsonParse s = none := Option.isNone_iff_eq_none.mp hp
    unfold extractTextContent wrapText
    simp [jsGet, jsTruthy, isObjType, typeIsText, List.find?, hb, hc, hpn, asStr]

/-- Witness for C8: a payload that is entirely an error envelope yields the
synthesized message; a payload with a malformed envelope is returned
unchanged. -/
theorem claim_c8_extract_witness :
    asStr (extractTextContent (wrapText "\x7b\"error\":\"bad arg\"\x7d")) =
      some "error: bad arg" ∧
    asStr (extractTextContent (wrapText "\x7b\"error\": oops")) =
      some "\x7b\"error\": oops" :=
  ⟨claim_c8_extract.1 "\x7b\"error\":\"bad arg\"\x7d" "bad arg"
      (JSVal.jobj [("error", JSVal.jstr "bad arg")]) (by decide) rfl rfl (by decide),
   claim_c8_extract.2 "\x7b\"error\": oops" (by decide) (by decide) (by decide)⟩

/-- Counterexample for C8 as stated: the payload `junk \x7b"error":"y"\x7d`
contains a substring that parses to an envelope with a truthy `error` key,
yet the extractor returns the payload unchanged (not `"error: y"`), because
the code parses the whole payload and that parse fails. -/
theorem claim_c8_counterexample :
    containsSub ("junk \x7b\"error\":\"y\"\x7d".data) ("\x7b\"error\":\"y\"\x7d".data) = true ∧
    (match jsonParse "\x7b\"error\":\"y\"\x7d" with
      | some v => jsTruthy ((jsGet v "error").getD JSVal.jnull)
      | none => false) = true ∧
    asStr (extractTextContent (wrapText "junk \x7b\"error\":\"y\"\x7d")) =
      some "junk \x7b\"error\":\"y\"\x7d" :=
  ⟨by decide, by decide, by decide⟩

/-! ### Uniqueness of stage indices (C9): the emitted indices form a
subsequence of the indices declared by the input's stage-start lines. -/

/-- The stage indices declared by the stage-start lines of the input, in
order (`-1` for a start line without a parseable index). -/
def lineIdxs (ls : List (List Char)) : List Int :=
  ls.filterMap (fun l => if stageStartTest l then some (stageIdxOf l) else none)

/-- The index of the pending (open) stage of the scanner state, if any. -/
def pendingIdxs (st : PState) : List Int :=
  match st.currentStage with
  | some c => [c.index]
  | none => []

/-- All stage indices held by the scanner state: emitted stages then the
pending one. -/
def stateIdxs (st : PState) : List Int :=
  st.result.stage_list.map (fun stg => stg.index) ++ pendingIdxs st

theorem stageApply_index (st : StageP) (p v : List Char) :
    (stageApply st p v).index = st.index := by
  unfold stageApply
  repeat' split
  all_goals rfl

theorem lineIdxs_cons (line : List Char) (rest : List (List Char)) :
    lineIdxs (line :: rest) =
      if stageStartTest line then stageIdxOf line :: lineIdxs rest else lineIdxs rest := by
  cases h : stageStartTest line <;>
    simp only [lineIdxs, List.filterMap_cons, h, Bool.false_eq_true, ite_false, ite_true]

theorem lineIdxs_tail_sublist (line : List Char) (rest : List (List Char)) (A : List Int) :
    (A ++ lineIdxs rest).Sublist (A ++ lineIdxs (line :: rest)) := by
  rw [lineIdxs_cons]
  by_cases h : stageStartTest line = true
  · rw [if_pos h]
    exact (List.sublist_cons_self _ _).append_left A
  · rw [if_neg h]

theorem lineIdxs_dropWhile_sublist (p : List Char → Bool) (ls : List (List Char)) :
    (lineIdxs (ls.dropWhile p)).Sublist (lineIdxs ls) :=
  (List.dropWhile_sublist _).filterMap _

theorem stateIdxs_eq_of (a b : PState) (h1 : a.result.stage_list = b.result.stage_list)
    (h2 : a.currentStage = b.currentStage) : stateIdxs a = stateIdxs b := by
  unfold stateIdxs pendingIdxs
  rw [h1, h2]

theorem ctLineStep_fields (v : List Char) (st : PState) :
    (ctLineStep v st).result.stage_list = st.result.stage_list ∧
    (ctLineStep v st).currentStage = st.currentStage := by
  unfold ctLineStep
  repeat' split
  all_goals exact ⟨rfl, rfl⟩

theorem ctStep_fields (line trimmed : List Char) (st : PState) :
    (ctStep line trimmed st).result.stage_list = st.result.stage_list ∧
    (ctStep line trimmed st).currentStage = st.currentStage := by
  unfold ctStep
  dsimp only
  repeat' split
  all_goals exact ⟨rfl, rfl⟩

theorem stepOf_elim (line : List Char) (rest : List (List Char)) (st : PState)
    (motive : PState × List (List Char) → Prop)
    (hskip : motive (st, rest))
    (hmission : motive
      ({ st with result := { st.result with mission := some (String.mk (jsTrim ((jsTrim line).drop 8))) }, currentSection := none }, rest))
    (hprocess : motive
      ({ st with result := { st.result with process := some (String.mk (jsTrim ((jsTrim line).drop 8))) }, currentSection := none }, rest))
    (hcsi : motive
      ({ st with result := { st.result with current_stage_index := some (csiValue (jsTrim ((jsTrim line).drop 20))) }, currentSection := none }, rest))
    (hcsn : motive
      ({ st with result := { st.result with current_stage_name := some (String.mk (jsTrim ((jsTrim line).drop 19))) }, currentSection := none }, rest))
    (hlcr : motive
      ({ st with result := { st.result with last_check_result := some (parseLastCheckResult (line :: rest)) }, currentSection := none }, rest.dropWhile (fun l => !topLevelCond l)))
    (hsl : motive ({ st with currentSection := some Sect.stageList }, rest))
    (hct : motive (ctLineStep (jsTrim ((jsTrim line).drop 13)) st, rest))
    (hstart : stageStartTest line = true → motive
      ({ st with result := { st.result with stage_list := match st.currentStage with | some c => st.result.stage_list ++ [c] | none => st.result.stage_list }, currentStage := some { index := stageIdxOf line } }, rest))
    (hprop : ∀ (cst : StageP) (pv : List Char × List Char), st.currentStage = some cst →
      propMatch line = some pv → motive
      ({ st with currentStage := some (stageApply cst pv.1 (jsTrim pv.2)) }, rest))
    (hexit : motive ({ st with currentSection := none, currentSubsection := none }, rest))
    (hctsec : motive (ctStep line (jsTrim line) st, rest)) :
    motive (stepOf line rest st) := by
  by_cases c0 : (jsTrim line).isEmpty = true
  · simp only [stepOf, c0, ite_true, Bool.false_eq_true]
    exact hskip
  by_cases c1 : listPrefix ("mission:".data) (jsTrim line) = true
  · simp only [stepOf, c0, c1, ite_true, ite_false, Bool.false_eq_true]
    exact hmission
  by_cases c2 : listPrefix ("process:".data) (jsTrim line) = true
  · simp only [stepOf, c0, c1, c2, ite_true, ite_false, Bool.false_eq_true]
    exact hprocess
  by_cases c3 : listPrefix ("current_stage_index:".data) (jsTrim line) = true
  · simp only [stepOf, c0, c1, c2, c3, ite_true, ite_false, Bool.false_eq_true]
    exact hcsi
  by_cases c4 : listPrefix ("current_stage_name:".data) (jsTrim line) = true
  · simp only [stepOf, c0, c1, c2, c3, c4, ite_true, ite_false, Bool.false_eq_true]
    exact hcsn
  by_cases c5 : listPrefix ("last_check_result:".data) (jsTrim line) = true
  · simp only [stepOf, c0, c1, c2, c3, c4, c5, ite_true, ite_false, Bool.false_eq_true]
    exact hlcr
  by_cases c6 : jsTrim line = ("stage_list:".data)
  · simp only [stepOf, c0, c1, c2, c3, c4, c5, eq_true c6, ite_true, ite_false, Bool.false_eq_true]
    exact hsl
  by_cases c7 : listPrefix ("current_task:".data) (jsTrim line) = true
  · simp only [stepOf, c0, c1, c2, c3, c4, c5, eq_false c6, c7, ite_true, ite_false, Bool.false_eq_true]
    exact hct
  by_cases c8 : st.currentSection = some Sect.stageList
  · by_cases c8a : stageStartTest line = true
    · simp only [stepOf, c0, c1, c2, c3, c4, c5, eq_false c6, c7, eq_true c8, c8a, ite_true, ite_false, Bool.false_eq_true]
      exact hstart c8a
    · cases hcs : st.currentStage with
      | some cst =>
        cases hpm : propMatch line with
        | some pv =>
          simp only [stepOf, c0, c1, c2, c3, c4, c5, eq_false c6, c7, eq_true c8, c8a, hcs, hpm,
            ite_true, ite_false, Bool.false_eq_true]
          exact hprop cst pv hcs hpm
        | none =>
          by_cases c9 : wordColonTest (jsTrim line) = true
          · simp only [stepOf, c0, c1, c2, c3, c4, c5, eq_false c6, c7, eq_true c8, c8a, hcs, hpm, c9,
              ite_true, ite_false, Bool.false_eq_true]
            rw [← hcs]
            exact hexit
          · simp only [stepOf, c0, c1, c2, c3, c4, c5, eq_false c6, c7, eq_true c8, c8a, hcs, hpm, c9,
              ite_true, ite_false, Bool.false_eq_true]
            exact hskip
      | none =>
        simp only [stepOf, c0, c1, c2, c3, c4, c5, eq_false c6, c7, eq_true c8, c8a, hcs, ite_true, ite_false, Bool.false_eq_true]
        exact hskip
  by_cases c10 : st.currentSection = some Sect.currentTask
  · simp only [stepOf, c0, c1, c2, c3, c4, c5, eq_false c6, c7, eq_false c8, eq_true c10, ite_true, ite_false, Bool.false_eq_true]
    exact hctsec
  · simp only [stepOf, c0, c1, c2, c3, c4, c5, eq_false c6, c7, eq_false c8, eq_false c10, ite_true, ite_false, Bool.false_eq_true]
    exact hskip


theorem stepOf_idx (line : List Char) (rest : List (List Char)) (st : PState) :
    ((stateIdxs (stepOf line rest st).1) ++ lineIdxs (stepOf line rest st).2).Sublist
      (stateIdxs st ++ lineIdxs (line :: rest)) := by
  refine stepOf_elim line rest st
    (fun p => ((stateIdxs p.1) ++ lineIdxs p.2).Sublist (stateIdxs st ++ lineIdxs (line :: rest)))
    ?_ ?_ ?_ ?_ ?_ ?_ ?_ ?_ ?_ ?_ ?_ ?_
  · exact lineIdxs_tail_sublist line rest _
  · exact lineIdxs_tail_sublist line rest _
  · exact lineIdxs_tail_sublist line rest _
  · exact lineIdxs_tail_sublist line rest _
  · exact lineIdxs_tail_sublist line rest _
  · exact ((lineIdxs_dropWhile_sublist _ _).append_left _).trans
      (lineIdxs_tail_sublist line rest _)
  · exact lineIdxs_tail_sublist line rest _
  · dsimp only
    rw [stateIdxs_eq_of (ctLineStep (jsTrim ((jsTrim line).drop 13)) st) st
      (ctLineStep_fields _ st).1 (ctLineStep_fields _ st).2]
    exact lineIdxs_tail_sublist line rest _
  · intro hss
    cases hcs : st.currentStage with
    | some c =>
      simp only [stateIdxs, pendingIdxs, hcs, List.map_append, List.map_cons, List.map_nil,
        lineIdxs_cons, hss, ite_true, List.append_assoc, List.singleton_append, List.cons_append,
        List.nil_append]
      exact List.Sublist.refl _
    | none =>
      simp only [stateIdxs, pendingIdxs, hcs, List.map_append, List.map_cons, List.map_nil,
        lineIdxs_cons, hss, ite_true, List.append_assoc, List.singleton_append, List.cons_append,
        List.nil_append]
      exact List.Sublist.refl _
  · intro cst pv hcs hpm
    simp only [stateIdxs, pendingIdxs, hcs, stageApply_index]
    exact lineIdxs_tail_sublist line rest _
  · exact lineIdxs_tail_sublist line rest _
  · dsimp only
    rw [stateIdxs_eq_of (ctStep line (jsTrim line) st) st (ctStep_fields line (jsTrim line) st).1
      (ctStep_fields line (jsTrim line) st).2]
    exact lineIdxs_tail_sublist line rest _

theorem parseLinesF_idx (fuel : Nat) :
    ∀ (ls : List (List Char)) (st : PState),
      (stateIdxs (parseLinesF fuel ls st)).Sublist (stateIdxs st ++ lineIdxs ls) := by
  induction fuel with
  | zero =>
    intro ls st
    exact List.sublist_append_left _ _
  | succ fuel ih =>
    intro ls st
    cases ls with
    | nil => exact List.sublist_append_left _ _
    | cons line rest =>
      show (stateIdxs (parseLinesF fuel (stepOf line rest st).2 (stepOf line rest st).1)).Sublist _
      exact (ih _ _).trans (stepOf_idx line rest st)

/-- C9 (amended): the parser copies stage indices verbatim from the input's
`- index:` lines (with `-1` for an unparseable index) and never deduplicates;
the emitted indices form a subsequence of the indices declared by the
stage-start lines, so whenever those declared indices are pairwise distinct,
the `stageList` indices are pairwise distinct. An input that declares the same
index twice yields duplicate `stageList` indices. -/
theorem claim_c9_unique_idx (s : String)
    (h : (lineIdxs (splitLines s.data)).Nodup) :
    ((parseStatusResponse s).stage_list.map (fun stg => stg.index)).Nodup := by
  have hsub := parseLinesF_idx ((splitLines s.data).length + 1) (splitLines s.data) {}
  have hflush : (parseStatusResponse s).stage_list.map (fun stg => stg.index) =
      stateIdxs (parseLinesF ((splitLines s.data).length + 1) (splitLines s.data) {}) := by
    unfold parseStatusResponse parseLines
    dsimp only
    cases hcs : (parseLinesF ((splitLines s.data).length + 1) (splitLines s.data) {}).currentStage
      with
    | some c =>
      simp only [hcs, stateIdxs, pendingIdxs, hcs, List.map_append, List.map_cons, List.map_nil]
    | none =>
      simp only [hcs, stateIdxs, pendingIdxs, hcs, List.append_nil]
  rw [hflush]
  exact h.sublist hsub

/-- Witness for C9: distinct declared indices give distinct parsed indices. -/
theorem claim_c9_unique_idx_witness :
    ((parseStatusResponse "stage_list:\n- index: 0\n- index: 1").stage_list.map
      (fun stg => stg.index)).Nodup :=
  claim_c9_unique_idx "stage_list:\n- index: 0\n- index: 1" (by decide)

/-- Counterexample for C9 as stated: duplicate `- index: 0` lines yield two
stages with the same index. -/
theorem claim_c9_counterexample :
    ((parseStatusResponse "stage_list:\n- index: 0\n- index: 0").stage_list.map
      (fun stg => stg.index)) = [0, 0] ∧
    ¬ ((parseStatusResponse "stage_list:\n- index: 0\n- index: 0").stage_list.map
      (fun stg => stg.index)).Nodup :=
  ⟨by decide, by decide⟩

/-! ### Totality and structural validity of the parser (C2) -/

theorem dropWhile_head_false (p : Char → Bool) (l : List Char) (a : Char) (t : List Char)
    (h : l.dropWhile p = a :: t) : p a = false := by
  induction l with
  | nil => simp at h
  | cons c cs ih =>
    by_cases hc : p c = true
    · rw [List.dropWhile_cons_of_pos hc] at h
      exact ih h
    · rw [List.dropWhile_cons_of_neg hc] at h
      cases h
      simpa using hc

theorem dropWhile_idem (p : Char → Bool) (l : List Char) :
    (l.dropWhile p).dropWhile p = l.dropWhile p := by
  cases h : l.dropWhile p with
  | nil => rfl
  | cons a t =>
    rw [List.dropWhile_cons_of_neg (by simp [dropWhile_head_false p l a t h])]

theorem jsTrimR_idem (l : List Char) : jsTrimR (jsTrimR l) = jsTrimR l := by
  unfold jsTrimR
  rw [List.reverse_reverse, dropWhile_idem]

theorem dropWhile_concat_head (p : Char → Bool) (a : Char) (ha : p a = false) :
    ∀ x : List Char, ∃ v, ((x ++ [a]).dropWhile p).reverse = a :: v := by
  intro x
  induction x with
  | nil =>
    refine ⟨[], ?_⟩
    rw [List.nil_append, List.dropWhile_cons_of_neg (by simp [ha])]
    rfl
  | cons c cs ih =>
    by_cases hc : p c = true
    · rw [List.cons_append, List.dropWhile_cons_of_pos hc]
      exact ih
    · refine ⟨cs.reverse ++ [c], ?_⟩
      rw [List.cons_append, List.dropWhile_cons_of_neg hc]
      simp

theorem jsTrimR_cons_head (a : Char) (t : List Char) (ha : jsSpace a = false) :
    ∃ v, jsTrimR (a :: t) = a :: v := by
  unfold jsTrimR
  rw [List.reverse_cons]
  exact dropWhile_concat_head jsSpace a ha t.reverse

theorem jsTrim_idem (l : List Char) : jsTrim (jsTrim l) = jsTrim l := by
  unfold jsTrim
  cases hL : jsTrimL l with
  | nil => rfl
  | cons a t =>
    have ha : jsSpace a = false := dropWhile_head_false jsSpace l a t hL
    obtain ⟨v, hv⟩ := jsTrimR_cons_head a t ha
    rw [hv]
    rw [show jsTrimL (a :: v) = a :: v from by
      unfold jsTrimL
      rw [List.dropWhile_cons_of_neg (by simp [ha])]]
    rw [← hv, jsTrimR_idem]

theorem jsTrimS_mk_trim (l : List Char) :
    jsTrimS (String.mk (jsTrim l)) = String.mk (jsTrim l) := by
  unfold jsTrimS
  rw [mk_data, jsTrim_idem]

/-- Structural validity of a parsed stage: the index is at least the `-1`
sentinel and a stored title is already trimmed. -/
def stageValid (stg : StageP) : Prop :=
  -1 ≤ stg.index ∧ ∀ t, stg.title = some t → jsTrimS t = t

/-- Structural validity of a parsed record: every stored stage is valid and
every stored top-level string field is already trimmed; fields never written
stay at their `none`/default sentinel by construction of the type. -/
def recordValid (r : StatusRecord) : Prop :=
  (∀ stg ∈ r.stage_list, stageValid stg) ∧
  (∀ m, r.mission = some m → jsTrimS m = m) ∧
  (∀ p, r.process = some p → jsTrimS p = p) ∧
  (∀ nm, r.current_stage_name = some nm → jsTrimS nm = nm)

/-- Validity of the scanner state: the accumulated record and the pending
stage are valid. -/
def stateValid (st : PState) : Prop :=
  recordValid st.result ∧ ∀ c, st.currentStage = some c → stageValid c

theorem stageValid_new (line : List Char) : stageValid { index := stageIdxOf line } := by
  constructor
  · unfold stageIdxOf
    cases scanIndexNum line with
    | none => simp
    | some n => simp; omega
  · intro t ht
    simp at ht

theorem stageApply_valid (cst : StageP) (p raw : List Char) (h : stageValid cst) :
    stageValid (stageApply cst p (jsTrim raw)) := by
  constructor
  · rw [stageApply_index]
    exact h.1
  · intro t ht
    unfold stageApply at ht
    split_ifs at ht
    case pos =>
      simp only at ht
      cases ht
      exact jsTrimS_mk_trim raw
    all_goals exact h.2 t ht


theorem ctLineStep_keeps (v : List Char) (st : PState) :
    (ctLineStep v st).result.mission = st.result.mission ∧
    (ctLineStep v st).result.process = st.result.process ∧
    (ctLineStep v st).result.current_stage_name = st.result.current_stage_name := by
  unfold ctLineStep
  repeat' split
  all_goals exact ⟨rfl, rfl, rfl⟩

theorem ctStep_keeps (line trimmed : List Char) (st : PState) :
    (ctStep line trimmed st).result.mission = st.result.mission ∧
    (ctStep line trimmed st).result.process = st.result.process ∧
    (ctStep line trimmed st).result.current_stage_name = st.result.current_stage_name := by
  unfold ctStep
  dsimp only
  repeat' split
  all_goals exact ⟨rfl, rfl, rfl⟩

theorem stateValid_of_fields (a b : PState) (h : stateValid b)
    (e1 : a.result.stage_list = b.result.stage_list)
    (e2 : a.result.mission = b.result.mission)
    (e3 : a.result.process = b.result.process)
    (e4 : a.result.current_stage_name = b.result.current_stage_name)
    (e5 : a.currentStage = b.currentStage) : stateValid a := by
  obtain ⟨⟨hs, hm, hp, hn⟩, hpend⟩ := h
  refine ⟨⟨?_, ?_, ?_, ?_⟩, ?_⟩
  · intro stg hstg
    rw [e1] at hstg
    exact hs stg hstg
  · intro m hm2
    rw [e2] at hm2
    exact hm m hm2
  · intro p hp2
    rw [e3] at hp2
    exact hp p hp2
  · intro nm hn2
    rw [e4] at hn2
    exact hn nm hn2
  · intro c hc
    rw [e5] at hc
    exact hpend c hc

theorem stepOf_valid (line : List Char) (rest : List (List Char)) (st : PState)
    (h : stateValid st) : stateValid (stepOf line rest st).1 := by
  refine stepOf_elim line rest st (fun p => stateValid p.1)
    ?_ ?_ ?_ ?_ ?_ ?_ ?_ ?_ ?_ ?_ ?_ ?_
  · exact h
  · refine ⟨⟨h.1.1, ?_, h.1.2.2.1, h.1.2.2.2⟩, h.2⟩
    intro m hm2
    cases hm2
    exact jsTrimS_mk_trim _
  · refine ⟨⟨h.1.1, h.1.2.1, ?_, h.1.2.2.2⟩, h.2⟩
    intro p hp2
    cases hp2
    exact jsTrimS_mk_trim _
  · exact ⟨⟨h.1.1, h.1.2.1, h.1.2.2.1, h.1.2.2.2⟩, h.2⟩
  · refine ⟨⟨h.1.1, h.1.2.1, h.1.2.2.1, ?_⟩, h.2⟩
    intro nm hn2
    cases hn2
    exact jsTrimS_mk_trim _
  · exact ⟨⟨h.1.1, h.1.2.1, h.1.2.2.1, h.1.2.2.2⟩, h.2⟩
  · exact ⟨h.1, h.2⟩
  · exact stateValid_of_fields _ st h (ctLineStep_fields _ st).1 (ctLineStep_keeps _ st).1
      (ctLineStep_keeps _ st).2.1 (ctLineStep_keeps _ st).2.2 (ctLineStep_fields _ st).2
  · intro hss
    refine ⟨⟨?_, h.1.2.1, h.1.2.2.1, h.1.2.2.2⟩, ?_⟩
    · intro stg hstg
      cases hcs : st.currentStage with
      | some c =>
        rw [show (match st.currentStage with
            | some c => st.result.stage_list ++ [c]
            | none => st.result.stage_list) = st.result.stage_list ++ [c] from by rw [hcs]]
          at hstg
        rcases List.mem_append.mp hstg with h1 | h1
        · exact h.1.1 stg h1
        · rw [List.mem_singleton.mp h1]
          exact h.2 c hcs
      | none =>
        rw [show (match st.currentStage with
            | some c => st.result.stage_list ++ [c]
            | none => st.result.stage_list) = st.result.stage_list from by rw [hcs]] at hstg
        exact h.1.1 stg hstg
    · intro c hc
      cases hc
      exact stageValid_new line
  · intro cst pv hcs hpm
    refine ⟨⟨h.1.1, h.1.2.1, h.1.2.2.1, h.1.2.2.2⟩, ?_⟩
    intro c hc
    cases hc
    exact stageApply_valid cst pv.1 pv.2 (h.2 cst hcs)
  · exact ⟨h.1, h.2⟩
  · exact stateValid_of_fields _ st h (ctStep_fields _ _ st).1 (ctStep_keeps _ _ st).1
      (ctStep_keeps _ _ st).2.1 (ctStep_keeps _ _ st).2.2 (ctStep_fields _ _ st).2

theorem parseLinesF_valid (fuel : Nat) :
    ∀ (ls : List (List Char)) (st : PState), stateValid st → stateValid (parseLinesF fuel ls st) := by
  induction fuel with
  | zero =>
    intro ls st h
    exact h
  | succ fuel ih =>
    intro ls st h
    cases ls with
    | nil => exact h
    | cons line rest =>
      show stateValid (parseLinesF fuel (stepOf line rest st).2 (stepOf line rest st).1)
      exact ih _ _ (stepOf_valid line rest st h)


/-- C2: parsing is total -- `parseStatusResponse` is a Lean function defined on
every string (empty, garbage, or truncated input included), so it can never
throw; its output is structurally valid (every declared stage index is at least
the `-1` sentinel and every stored `title`, `mission`, `process` and
`current_stage_name` string is trim-idempotent, i.e. carries no stray
whitespace), and on empty input every field holds its default empty/sentinel
value. -/
theorem claim_c2_parse_total (s : String) :
    recordValid (parseStatusResponse s) ∧ parseStatusResponse "" = {} := by
  constructor
  · have hini : stateValid ({} : PState) := by
      refine ⟨⟨?_, ?_, ?_, ?_⟩, ?_⟩
      · intro stg hstg
        exact absurd hstg (by simp [PState.result])
      · intro m hm
        exact Option.noConfusion hm
      · intro p hp
        exact Option.noConfusion hp
      · intro nm hn
        exact Option.noConfusion hn
      · intro c hc
        exact Option.noConfusion hc
    have hfin := parseLinesF_valid ((splitLines s.data).length + 1) (splitLines s.data) {} hini
    unfold parseStatusResponse parseLines
    dsimp only
    cases hcs : (parseLinesF ((splitLines s.data).length + 1) (splitLines s.data) {}).currentStage
      with
    | none => exact hfin.1
    | some c =>
      obtain ⟨⟨hs, hm, hp, hn⟩, hpend⟩ := hfin
      refine ⟨?_, hm, hp, hn⟩
      intro stg hstg
      rcases List.mem_append.mp hstg with h1 | h1
      · exact hs stg h1
      · rw [List.mem_singleton.mp h1]
        exact hpend c hcs
  · rfl

end UCAgentWeb
